import Mathlib

/-!
Verification development for the clockr time-tracking application
(single source file `src/main.js`).

Modelling conventions (shallow embedding):

* Instants are `Int` milliseconds since the Unix epoch.  The source stores
  `startTime`/`endTime` as ISO-8601 strings with millisecond precision
  produced by `new Date(ms).toISOString()`; for integer millisecond values
  that round trip is exact, so entries carry the instants directly.
* JavaScript objects used as maps (`state.timers`, `state.entries`,
  `state.workspaceNames`) are total functions `Nat → _`.  An absent slot in
  the source behaves exactly like the default value that
  `initWorkspaceState` would install (`{startTime: null, elapsed: 0}`,
  `[]`, falsy name), so absence is identified with the default and
  `initWorkspaceState` is extensionally the identity on the model state.
* `stopTimer` (main.js:349) is `async` and suspends exactly once, at
  `await addEntry(...)` (main.js:366); `clearAll` (main.js:602) suspends
  exactly once, at `await clearAllEntries()` (main.js:625).  The suspended
  continuations are modelled explicitly as a FIFO queue of `PendingOp`
  values; a separate `dbResolve` step runs the head continuation (the
  database serialises the requests).  `startTimer` (main.js:321) is a plain
  synchronous function: its call `stopTimer(state.activeWorkspace)` on
  line 324 is NOT awaited, so only the synchronous prefix of `stopTimer`
  runs before `startTimer` continues.
* `changeWorkspaceCount` (main.js:641) does `await stopTimer(...)`, so
  there the stop completes before the count changes; the awaited call is
  modelled as the synchronous prefix followed immediately by its resolve
  step, and the event is only enabled when no other persistence is in
  flight (the queue is empty), which keeps the FIFO model exact.
* `stopTimer` reads the clock twice: `Date.now()` for the duration
  (main.js:353) and a second, later `new Date()` for `endTime`
  (main.js:360); the two reads are separate parameters (`tDur`, `tEnd`) of
  the model, with `tDur ≤ tEnd` on a monotone clock.  `startTimer` performs
  its own `Date.now()` read on main.js:328 (`tStart`), after the reads of
  the stop it may have initiated.
* `stopTimer` captures the timer OBJECT once, before the `await`
  (`const timer = state.timers[workspace]`, main.js:350), and its
  continuation resets through that alias (main.js:382-383).  `clearAll`'s
  continuation REPLACES `state.timers[i]` with a fresh object
  (main.js:630), detaching any such alias; every other write mutates the
  existing object in place.  Object identity is modelled by a per-slot
  generation counter `timerGen`: a suspended stop records the generation it
  captured, replacement bumps the generation, and the continuation's timer
  reset takes effect only if the generation still matches.  The live
  lookups of the continuation (`state.entries[workspace]` on main.js:372,
  `state.activeWorkspace` on main.js:397) are unaffected by the alias.
* DOM reads/writes, rendering and `alert` are presentation effects with no
  bearing on the state machine and are dropped.
-/

namespace Clockr

/-- Per-workspace timer state, main.js:71: `{ startTime: null, elapsed: 0 }`. -/
structure Timer where
  startTime : Option Int
  elapsed : Int
deriving DecidableEq

/-- A completed interval as built in `stopTimer`, main.js:358-363 (the
database id assigned on insert plays no role in the claims and is
omitted). -/
structure Entry where
  startTime : Int
  endTime : Int
  duration : Int
  description : String
deriving DecidableEq

/-- A suspended continuation waiting on the database: either the remainder
of `stopTimer` after `await addEntry` (main.js:366) — carrying the entry it
already constructed and the generation `g` of the timer object it captured
on main.js:350 (the alias through which main.js:382-383 will write) — or
the remainder of `clearAll` after `await clearAllEntries()`
(main.js:625). -/
inductive PendingOp where
  | stop (w : Nat) (g : Nat) (e : Entry)
  | clearOp
deriving DecidableEq

/-- The mutable program state, main.js:16-22, together with the persisted
entry table (`dbEntries`, pairs of workspace id and entry), the queue of
suspended continuations, and `timerGen`, the object-identity surrogate for
the timer slots: `timerGen i` counts how many times `state.timers[i]` has
been REPLACED by a fresh object (only `clearAll`'s continuation does this,
main.js:630; all other writes mutate in place). -/
structure AppState where
  workspaceCount : Nat
  activeWorkspace : Option Nat
  timers : Nat → Timer
  timerGen : Nat → Nat
  entries : Nat → List Entry
  workspaceNames : Nat → String
  dbEntries : List (Nat × Entry)
  pending : List PendingOp

/-- Pointwise update of a map, modelling `state.timers[w] = v` etc. -/
def setAt {α : Type} (f : Nat → α) (k : Nat) (v : α) : Nat → α :=
  fun i => if i = k then v else f i

/-- JavaScript `String.prototype.trim` on the description input
(main.js:355), modelled on the character list. -/
def jsTrim (s : String) : String :=
  String.mk (((s.data.dropWhile Char.isWhitespace).reverse.dropWhile
    Char.isWhitespace).reverse)

/-- Description normalisation `description || "No description"` after
trimming, main.js:355 and main.js:362. -/
def normalizeDescription (d : String) : String :=
  let t := jsTrim d
  if t = "" then "No description" else t

/-- The entry object constructed by `stopTimer` at main.js:358-363.  The
source reads the clock twice: `duration` uses the `Date.now()` read at
main.js:353 (`tDur`), while `endTime` is a second, later `new Date()` read
at main.js:360 (`tEnd`); when the millisecond clock ticks between the two
reads, `duration` is strictly smaller than `endTime - startTime`. -/
def stopEntry (tDur tEnd : Int) (d : String) (s : AppState) (w : Nat)
    (st : Int) : Entry :=
  { startTime := st
    endTime := tEnd
    duration := (s.timers w).elapsed + (tDur - st)
    description := normalizeDescription d }

/-- The synchronous prefix of `stopTimer` (main.js:349-379).  When the
timer is running (main.js:352) the duration and entry are computed
(main.js:353-363) and the function suspends at `await addEntry`
(main.js:366): only the queue grows.  When the timer is not running no
`await` is reached, so the whole body runs synchronously: the timer is
reset (main.js:382-383) and `activeWorkspace` is cleared if it pointed at
this workspace (main.js:397-399). -/
def stopTimerSync (w : Nat) (tDur tEnd : Int) (d : String) (s : AppState) : AppState :=
  match (s.timers w).startTime with
  | some st =>
      { s with pending := s.pending ++
          [PendingOp.stop w (s.timerGen w) (stopEntry tDur tEnd d s w st)] }
  | none =>
      if s.activeWorkspace = some w then
        { s with
          timers := setAt s.timers w { startTime := none, elapsed := 0 }
          activeWorkspace := none }
      else
        { s with timers := setAt s.timers w { startTime := none, elapsed := 0 } }

/-- Running the head continuation of the queue when the database resolves.
For a suspended `stopTimer` this is main.js:366-407: the entry is persisted
and prepended to the in-memory list (live lookup `state.entries[workspace]`
at main.js:369-372), `activeWorkspace` is cleared if it still points at
this workspace (live lookup, main.js:397-399), and the timer reset
(main.js:382-383) is performed through the ALIAS captured before the
`await` — it takes effect on the live state only if `state.timers[w]` is
still the same object, i.e. only if the recorded generation still matches;
a stale alias (the object was replaced by a clear-all in the meantime,
main.js:630) leaves the live timer untouched.  For a suspended `clearAll`
this is the database deletion together with main.js:628-631: all persisted
entries are wiped and every entry list and timer with id in
`[1, workspaceCount]` is REPLACED by a fresh default (bumping that slot's
generation). -/
def dbResolve (s : AppState) : AppState :=
  match s.pending with
  | [] => s
  | PendingOp.stop w g e :: rest =>
      if s.timerGen w = g then
        if s.activeWorkspace = some w then
          { s with
            dbEntries := s.dbEntries ++ [(w, e)]
            entries := setAt s.entries w (e :: s.entries w)
            timers := setAt s.timers w { startTime := none, elapsed := 0 }
            pending := rest
            activeWorkspace := none }
        else
          { s with
            dbEntries := s.dbEntries ++ [(w, e)]
            entries := setAt s.entries w (e :: s.entries w)
            timers := setAt s.timers w { startTime := none, elapsed := 0 }
            pending := rest }
      else
        if s.activeWorkspace = some w then
          { s with
            dbEntries := s.dbEntries ++ [(w, e)]
            entries := setAt s.entries w (e :: s.entries w)
            pending := rest
            activeWorkspace := none }
        else
          { s with
            dbEntries := s.dbEntries ++ [(w, e)]
            entries := setAt s.entries w (e :: s.entries w)
            pending := rest }
  | PendingOp.clearOp :: rest =>
      { s with
        dbEntries := []
        entries := fun i => if 1 ≤ i ∧ i ≤ s.workspaceCount then [] else s.entries i
        timers := fun i => if 1 ≤ i ∧ i ≤ s.workspaceCount then
          { startTime := none, elapsed := 0 } else s.timers i
        timerGen := fun i => if 1 ≤ i ∧ i ≤ s.workspaceCount then
          s.timerGen i + 1 else s.timerGen i
        pending := rest }

/-- The function `startTimer` (main.js:321-346).  If another workspace is
active its stop is initiated but NOT awaited (main.js:323-325), so only
`stopTimerSync` runs; then `activeWorkspace` and the workspace's
`startTime` are set unconditionally (main.js:327-328) — the guard on line
323 only protects the stop call, so starting the already-active workspace
also reassigns its `startTime`.  `tDur`/`tEnd` are the two clock reads of
the initiated stop (unused when no stop is initiated, since those reads
never execute), and `tStart` is the later `Date.now()` read of line 328;
the assignment on line 328 mutates the live timer object in place. -/
def startTimer (w : Nat) (tDur tEnd tStart : Int) (d : String) (s : AppState) :
    AppState :=
  let s1 := match s.activeWorkspace with
    | some a => if a = w then s else stopTimerSync a tDur tEnd d s
    | none => s
  { s1 with
    activeWorkspace := some w
    timers := setAt s1.timers w { s1.timers w with startTime := some tStart } }

/-- An awaited, fully completed `stopTimer` call: the synchronous prefix
immediately followed by its database resolve.  Used by
`changeWorkspaceCount` (main.js:644, `await stopTimer(...)`), which is only
modelled with an empty queue so that the resolved head is the one just
pushed. -/
def stopTimerFull (w : Nat) (tDur tEnd : Int) (d : String) (s : AppState) :
    AppState :=
  dbResolve (stopTimerSync w tDur tEnd d s)

/-- The synchronous prefix of `clearAll` (main.js:602-625): a running timer
is discarded without flushing (main.js:604-617) — `startTime` nulled,
`elapsed` zeroed, `activeWorkspace` cleared — and the function suspends at
`await clearAllEntries()` (main.js:625), enqueueing the clear
continuation. -/
def clearAllBegin (s : AppState) : AppState :=
  match s.activeWorkspace with
  | some a =>
      { s with
        timers := setAt s.timers a { startTime := none, elapsed := 0 }
        activeWorkspace := none
        pending := s.pending ++ [PendingOp.clearOp] }
  | none => { s with pending := s.pending ++ [PendingOp.clearOp] }

/-- The operation `changeWorkspaceCount` (main.js:641-676): a running timer
is stopped first with `await` (main.js:643-645), then the count is set
(main.js:647).  `initWorkspaceState` (main.js:68-80) only installs the
default value in absent slots and is therefore the identity on the model
(absence is identified with the default); the database reconciliation
(main.js:651-671) re-reads what was written and does not change the model
state. -/
def changeWorkspaceCount (n : Nat) (tDur tEnd : Int) (d : String)
    (s : AppState) : AppState :=
  let s1 := match s.activeWorkspace with
    | some a => stopTimerFull a tDur tEnd d s
    | none => s
  { s1 with workspaceCount := n }

/-- The state after `loadState` on a fresh database with stored workspace
count `c` (main.js:83-127 with empty tables): every timer is
`{startTime: null, elapsed: 0}`, every entry list empty, default names. -/
def initialState (c : Nat) : AppState :=
  { workspaceCount := c
    activeWorkspace := none
    timers := fun _ => { startTime := none, elapsed := 0 }
    timerGen := fun _ => 0
    entries := fun _ => []
    workspaceNames := fun i => "Workspace " ++ toString i
    dbEntries := []
    pending := [] }

/-- One atomic turn of the event loop.  Start/stop clicks are only offered
for workspaces `1..workspaceCount` (the buttons rendered by
`renderWorkspaces`, main.js:277, and the keyboard shortcuts,
main.js:984-992); `resolve` runs the continuation of the oldest
outstanding database request; `changeCount` requires `1 ≤ n` (the selector
offers 1-4) and an empty queue (see `changeWorkspaceCount`). -/
inductive Step : AppState → AppState → Prop where
  | start (w : Nat) (tDur tEnd tStart : Int) (d : String) (s : AppState)
      (h1 : 1 ≤ w) (h2 : w ≤ s.workspaceCount) :
      Step s (startTimer w tDur tEnd tStart d s)
  | stop (w : Nat) (tDur tEnd : Int) (d : String) (s : AppState)
      (h1 : 1 ≤ w) (h2 : w ≤ s.workspaceCount) :
      Step s (stopTimerSync w tDur tEnd d s)
  | resolve (s : AppState) : Step s (dbResolve s)
  | clearBegin (s : AppState) : Step s (clearAllBegin s)
  | changeCount (n : Nat) (tDur tEnd : Int) (d : String) (s : AppState)
      (h1 : 1 ≤ n) (hp : s.pending = []) :
      Step s (changeWorkspaceCount n tDur tEnd d s)

/-- States reachable from a fresh start of the application. -/
inductive Reachable : AppState → Prop where
  | init (c : Nat) (h : 1 ≤ c) : Reachable (initialState c)
  | step {s t : AppState} : Reachable s → Step s t → Reachable t

/-- States reachable without ever invoking the clear-all operation (the
other events remain available).  In such runs no timer object is ever
replaced, so a suspended stop continuation's alias is always the live
object. -/
inductive ReachableNoClear : AppState → Prop where
  | init (c : Nat) (h : 1 ≤ c) : ReachableNoClear (initialState c)
  | start {s : AppState} (hr : ReachableNoClear s) (w : Nat)
      (tDur tEnd tStart : Int) (d : String)
      (h1 : 1 ≤ w) (h2 : w ≤ s.workspaceCount) :
      ReachableNoClear (startTimer w tDur tEnd tStart d s)
  | stop {s : AppState} (hr : ReachableNoClear s) (w : Nat) (tDur tEnd : Int)
      (d : String) (h1 : 1 ≤ w) (h2 : w ≤ s.workspaceCount) :
      ReachableNoClear (stopTimerSync w tDur tEnd d s)
  | resolve {s : AppState} (hr : ReachableNoClear s) :
      ReachableNoClear (dbResolve s)
  | changeCount {s : AppState} (hr : ReachableNoClear s) (n : Nat)
      (tDur tEnd : Int) (d : String) (h1 : 1 ≤ n) (hp : s.pending = []) :
      ReachableNoClear (changeWorkspaceCount n tDur tEnd d s)

/-- Workspaces with a stop continuation still in flight. -/
def stopPending (l : List PendingOp) : List Nat :=
  l.filterMap fun p => match p with
    | PendingOp.stop w _ _ => some w
    | PendingOp.clearOp => none

/-- The invariant of the full event system used by the accumulator claim:
every `elapsed` accumulator is zero (every write to `elapsed` in the
source — main.js:71, 383, 607, 630 — writes 0, and the claim survives even
a stale-alias stop continuation, which leaves the timer unchanged). -/
def EngineInv (s : AppState) : Prop :=
  ∀ w, (s.timers w).elapsed = 0

/-- The inductive invariant of the clear-free event system: every
workspace whose `startTime` is non-null is either the active workspace or
has a stop in flight; every suspended stop captured the generation its
workspace still has (no replacement ever happens without clear-all); and
no clear continuation is pending. -/
def EngineInvNC (s : AppState) : Prop :=
  (∀ w, (s.timers w).startTime ≠ none →
    s.activeWorkspace = some w ∨ w ∈ stopPending s.pending) ∧
  (∀ w g e, PendingOp.stop w g e ∈ s.pending → s.timerGen w = g) ∧
  PendingOp.clearOp ∉ s.pending

/-- JavaScript `String.prototype.padStart(2, "0")` as used in the
formatters (main.js:180); the argument is never empty here. -/
def pad2 (s : String) : String :=
  if s.length < 2 then "0" ++ s else s

/-- The formatter `formatTime` (main.js:173-182): `HH:MM:SS` with
`Math.floor` division and JavaScript `%` (truncating remainder). -/
def formatTime (ms : Int) : String :=
  let totalSeconds := Int.fdiv ms 1000
  let hours := Int.fdiv totalSeconds 3600
  let minutes := Int.fdiv (Int.tmod totalSeconds 3600) 60
  let seconds := Int.tmod totalSeconds 60
  pad2 (toString hours) ++ ":" ++ pad2 (toString minutes) ++ ":" ++
    pad2 (toString seconds)

/-- Proleptic-Gregorian civil date `(year, month, day)` of a day number
counted from 1970-01-01, as computed by the JavaScript `Date` UTC
accessors. -/
def civilFromDays (z0 : Int) : Int × Int × Int :=
  let z := z0 + 719468
  let era := Int.fdiv z 146097
  let doe := z - era * 146097
  let yoe := Int.fdiv (doe - Int.fdiv doe 1460 + Int.fdiv doe 36524 -
    Int.fdiv doe 146096) 365
  let y := yoe + era * 400
  let doy := doe - (365 * yoe + Int.fdiv yoe 4 - Int.fdiv yoe 100)
  let mp := Int.fdiv (5 * doy + 2) 153
  let dd := doy - Int.fdiv (153 * mp + 2) 5 + 1
  let m := mp + (if mp < 10 then 3 else -9)
  (y + (if m ≤ 2 then 1 else 0), m, dd)

/-- Day number from a civil `(year, month, day)`; linear in the day, so a
day past the end of the month rolls into the following month exactly like
the JavaScript `Date` day/month normalisation (`MakeDay`). -/
def daysFromCivil (y m dd : Int) : Int :=
  let y1 := y - (if m ≤ 2 then 1 else 0)
  let era := Int.fdiv y1 400
  let yoe := y1 - era * 400
  let mp := m + (if 2 < m then -3 else 9)
  let doy := Int.fdiv (153 * mp + 2) 5 + dd - 1
  let doe := yoe * 365 + Int.fdiv yoe 4 - Int.fdiv yoe 100 + doy
  era * 146097 + doe - 719468

/-- The formatter `formatDateCSV` (main.js:196-199):
`new Date(ms).toISOString().split("T")[0]`.  `toISOString` renders in
UTC, so this is the UTC calendar date of the instant (ISO `YYYY-MM-DD`;
the years that occur here are four-digit). -/
def formatDateCSV (ms : Int) : String :=
  let days := Int.fdiv ms 86400000
  let c := civilFromDays days
  toString c.1 ++ "-" ++ pad2 (toString c.2.1) ++ "-" ++ pad2 (toString c.2.2)

/-- The formatter `formatTimeCSV` (main.js:202-205):
`new Date(ms).toTimeString().split(" ")[0]`, the LOCAL time of day
`HH:MM:SS`.  The process timezone is the offset `tz` in milliseconds to
add to UTC (the model uses a fixed offset; daylight-saving transitions are
outside the model). -/
def formatTimeCSV (tz ms : Int) : String :=
  let lms := ms + tz
  let tod := lms - 86400000 * Int.fdiv lms 86400000
  pad2 (toString (Int.fdiv tod 3600000)) ++ ":" ++
    pad2 (toString (Int.fdiv (Int.tmod tod 3600000) 60000)) ++ ":" ++
    pad2 (toString (Int.fdiv (Int.tmod tod 60000) 1000))

/-- Local calendar-day number of an instant (fixed-offset timezone).  Two
instants render the same `toDateString()` (main.js:223, main.js:230) iff
they fall on the same local day number. -/
def localDays (tz t : Int) : Int := Int.fdiv (t + tz) 86400000

/-- The expression `state.workspaceNames[i] || "Workspace " + i`
(main.js:551): an absent or empty name falls back to the default. -/
def nameOrDefault (names : Nat → String) (i : Nat) : String :=
  if names i = "" then "Workspace " ++ toString i else names i

/-- One row pushed by `exportToCSV` (main.js:550-558). -/
structure CsvRow where
  workspace : String
  date : String
  startTime : String
  endTime : String
  duration : String
  durationSeconds : Int
  description : String
deriving DecidableEq

/-- Row construction in `exportToCSV` (main.js:550-558):
`durationSeconds = Math.floor(duration / 1000)` (main.js:556). -/
def csvRowOf (tz : Int) (name : String) (e : Entry) : CsvRow :=
  { workspace := name
    date := formatDateCSV e.startTime
    startTime := formatTimeCSV tz e.startTime
    endTime := formatTimeCSV tz e.endTime
    duration := formatTime e.duration
    durationSeconds := Int.fdiv e.duration 1000
    description := e.description }

/-- The flattening loop of `exportToCSV` (main.js:547-561): workspaces
`1..workspaceCount` in order, each workspace's entries in list order. -/
def buildRows (tz : Int) (count : Nat) (names : Nat → String)
    (entries : Nat → List Entry) : List CsvRow :=
  (List.range' 1 count).flatMap fun i =>
    (entries i).map (csvRowOf tz (nameOrDefault names i))

/-- Code-point lexicographic strict order on character lists;
`String.prototype.localeCompare` on the ASCII digit/punctuation strings
compared here (dates `YYYY-MM-DD`, times `HH:MM:SS`) agrees with code
points. -/
def ltCh : List Char → List Char → Bool
  | _, [] => false
  | [], _ :: _ => true
  | a :: as, b :: bs => if a < b then true else if b < a then false else ltCh as bs

/-- The sort comparator of `exportToCSV` (main.js:564-568) as a
"may come first" relation: row `a` may precede row `b` iff the comparator
returns a non-positive value, i.e. descending by date, ties broken
descending by start time. -/
def csvLeB (a b : CsvRow) : Bool :=
  ltCh b.date.data a.date.data ||
    (decide (b.date = a.date) && !(ltCh a.startTime.data b.startTime.data))

def csvLe (a b : CsvRow) : Prop := csvLeB a b = true

instance : DecidableRel csvLe := fun a b => instDecidableEqBool (csvLeB a b) true

/-- The regex replace `description.replace(/"/g, '""')` (main.js:584). -/
def jsReplaceQuotes (s : String) : String :=
  String.mk (s.data.flatMap fun c => if c = '"' then ['"', '"'] else [c])

/-- One output line of `exportToCSV` (main.js:577-585): the workspace name
is quote-wrapped verbatim (no doubling of interior quotes), the
description is quote-wrapped with interior quotes doubled, and the
date/time/numeric fields are unquoted. -/
def renderRow (r : CsvRow) : String :=
  "\"" ++ r.workspace ++ "\"" ++ "," ++ r.date ++ "," ++ r.startTime ++ "," ++
    r.endTime ++ "," ++ r.duration ++ "," ++ toString r.durationSeconds ++ "," ++
    "\"" ++ jsReplaceQuotes r.description ++ "\""

/-- The header row (main.js:576). -/
def csvHeader : String :=
  "Workspace,Date,Start Time,End Time,Duration,Duration (seconds),Description"

/-- The function `exportToCSV` (main.js:544-599): flatten, sort with the
comparator (JavaScript `Array.prototype.sort` is stable; a stable
insertion sort realises it for this total preorder), report
"No entries to export" when there are no rows (main.js:570-573), otherwise
produce the header line followed by one rendered line per row.  The file
download plumbing (main.js:590-598) is a presentation effect. -/
def exportToCSV (tz : Int) (count : Nat) (names : Nat → String)
    (entries : Nat → List Entry) : Except String (List String) :=
  let allEntries := buildRows tz count names entries
  let sorted := List.insertionSort csvLe allEntries
  if sorted.length = 0 then Except.error "No entries to export"
  else Except.ok (csvHeader :: sorted.map renderRow)

/-- A record as returned by `loadAllRecords` (main.js:723-731). -/
structure RecordR where
  id : Int
  workspaceId : Nat
  workspaceName : String
  startTime : Int
  endTime : Int
  duration : Int
  description : String
deriving DecidableEq

/-- The `recordsFilter.workspace` field (main.js:680): `'all'` or a
workspace id. -/
inductive WorkspaceScope where
  | all
  | ws (id : Nat)
deriving DecidableEq

/-- The `recordsFilter.date` field (main.js:680). -/
inductive DateScope where
  | all
  | today
  | week
  | month
deriving DecidableEq

/-- The transient filter state (main.js:680). -/
structure FilterState where
  workspace : WorkspaceScope
  date : DateScope
deriving DecidableEq

/-- Local midnight of today as an instant:
`new Date(now.getFullYear(), now.getMonth(), now.getDate())`
(main.js:745-746) under a fixed-offset timezone. -/
def todayStartMs (tz now : Int) : Int := 86400000 * localDays tz now - tz

/-- `weekAgo.setDate(weekAgo.getDate() - 7)` (main.js:751-752): seven
calendar days before local midnight (exactly seven 24-hour days under a
fixed offset). -/
def weekAgoStartMs (tz now : Int) : Int := todayStartMs tz now - 7 * 86400000

/-- `monthAgo.setMonth(monthAgo.getMonth() - 1)` (main.js:755-756):
calendar-month subtraction keeping the day-of-month, with a day past the
end of the target month rolling forward per `MakeDay` normalisation
(`daysFromCivil` is linear in the day). -/
def monthAgoStartMs (tz now : Int) : Int :=
  let c := civilFromDays (localDays tz now)
  let ym : Int × Int := if c.2.1 = 1 then (c.1 - 1, 12) else (c.1, c.2.1 - 1)
  86400000 * daysFromCivil ym.1 ym.2 c.2.2 - tz

/-- The function `filterRecords` (main.js:735-761): copy, narrow by
workspace id (passthrough for `'all'`), then narrow by the date scope
using `new Date(r.startTime) >= boundary` (instant comparison). -/
def filterRecords (f : FilterState) (tz now : Int) (records : List RecordR) :
    List RecordR :=
  let filtered := records
  let filtered := match f.workspace with
    | WorkspaceScope.all => filtered
    | WorkspaceScope.ws wsId => filtered.filter fun r => r.workspaceId == wsId
  match f.date with
  | DateScope.all => filtered
  | DateScope.today => filtered.filter fun r => decide (todayStartMs tz now ≤ r.startTime)
  | DateScope.week => filtered.filter fun r => decide (weekAgoStartMs tz now ≤ r.startTime)
  | DateScope.month => filtered.filter fun r => decide (monthAgoStartMs tz now ≤ r.startTime)

/-- The function `updateTotalTime` (main.js:222-244): for each workspace
`1..workspaceCount`, add the durations of its entries whose `startTime`
has today's `toDateString()` (same local calendar day), and when this
workspace is the active one additionally add
`timer.elapsed + (timer.startTime ? now - timer.startTime : 0)`
(main.js:237-240). -/
def updateTotalTime (tz now : Int) (s : AppState) : Int :=
  (List.range' 1 s.workspaceCount).foldl (fun total i =>
    let t1 := (s.entries i).foldl (fun acc e =>
      if localDays tz e.startTime = localDays tz now then acc + e.duration
      else acc) total
    if s.activeWorkspace = some i then
      t1 + (s.timers i).elapsed +
        (match (s.timers i).startTime with
         | some st => now - st
         | none => 0)
    else t1) 0

/-- Sum of the durations of the entries that started on the current local
calendar day. -/
def dayTotal (tz now : Int) (es : List Entry) : Int :=
  ((es.filter fun e => decide (localDays tz e.startTime = localDays tz now)).map
    Entry.duration).sum

/-- Effective elapsed time of a timer per spec §3:
`elapsedAccumulated + (now - startTime)` when running, the accumulator
alone when stopped. -/
def liveElapsed (now : Int) (t : Timer) : Int :=
  match t.startTime with
  | some st => t.elapsed + (now - st)
  | none => t.elapsed

/-- Specification-side statement of `totalToday` (spec §4.3): the sum over
the exposed workspaces of the durations of today's entries, plus the live
elapsed time of the active workspace. -/
def totalTodaySpec (tz now : Int) (s : AppState) : Int :=
  ((List.range' 1 s.workspaceCount).map (fun i => dayTotal tz now (s.entries i))).sum +
    (match s.activeWorkspace with
     | some a => liveElapsed now (s.timers a)
     | none => 0)

/-- The summary block of `loadRecordsView` (main.js:778-781).  JavaScript
number division is modelled exactly in `ℚ`. -/
def recordsSummary (rs : List RecordR) : Nat × Int × ℚ :=
  let totalEntries := rs.length
  let totalDuration := rs.foldl (fun sum r => sum + r.duration) (0 : Int)
  let avgDuration : ℚ :=
    if 0 < totalEntries then (totalDuration : ℚ) / (totalEntries : ℚ) else 0
  (totalEntries, totalDuration, avgDuration)

/-- Specification-side `EntryAggregator.summarize` (spec §4.3):
`{count, totalDurationMs, averageDurationMs}` with the average
`totalDurationMs / count` for nonempty input and `0` otherwise. -/
def summarizeSpec (rs : List RecordR) : Nat × Int × ℚ :=
  let count := rs.length
  let total := (rs.map (fun r => r.duration)).sum
  (count, total, if 0 < count then (total : ℚ) / (count : ℚ) else 0)

/-- Demonstration workspace names for the export theorems: workspace 1 is
named `a"b` (a name containing a double quote). -/
def csvDemoNames : Nat → String := fun i => if i = 1 then "a\"b" else ""

/-- Demonstration entry for the export theorems:
2024-01-01 09:00:00Z — 10:30:00Z. -/
def csvDemoEntry : Entry :=
  { startTime := 1704099600000
    endTime := 1704105000000
    duration := 5400000
    description := "No description" }

/-- Demonstration entry set for the export theorems: the single entry
above in workspace 1. -/
def csvDemoEntries : Nat → List Entry := fun i =>
  if i = 1 then [csvDemoEntry] else []

/-- Demonstration record with a given duration, for the summary theorem. -/
def demoRec (dur : Int) : RecordR :=
  { id := 0, workspaceId := 1, workspaceName := "W", startTime := 0,
    endTime := 0, duration := dur, description := "x" }

/-- The clear-race trace behind the C1 counterexample: clear-all begins
while idle (raceS1); workspace 1 is started at 100 (raceS2) and stopped at
200 (raceS3), its stop continuation capturing generation 0 of timer 1; the
clear-all's database deletion then resolves (raceS4), REPLACING every timer
object (main.js:630) and bumping the generations to 1; workspace 2 is
started at 300 (raceS5), then workspace 1 again at 500 with workspace 2's
stop reads at 400 (raceS6); the stale stop continuation for workspace 1
resolves (raceS7) — its alias no longer is `state.timers[1]`, so the reset
on main.js:382-383 misses the live timer, yet main.js:397-399 still clears
`activeWorkspace` — and finally workspace 2's fresh stop resolves
(raceS8), leaving a quiescent state with no active workspace but workspace
1 still running; starting workspace 2 once more (raceS9) yields a
quiescent state with TWO running workspaces. -/
def raceS1 : AppState := clearAllBegin (initialState 2)

def raceS2 : AppState := startTimer 1 100 100 100 "" raceS1

def raceS3 : AppState := stopTimerSync 1 200 200 "" raceS2

def raceS4 : AppState := dbResolve raceS3

def raceS5 : AppState := startTimer 2 300 300 300 "" raceS4

def raceS6 : AppState := startTimer 1 400 400 500 "" raceS5

def raceS7 : AppState := dbResolve raceS6

def raceS8 : AppState := dbResolve raceS7

def raceS9 : AppState := startTimer 2 600 600 600 "" raceS8

/-! From here on the file is theorems: general lemmas about the
definitions above, followed by the claim theorems. -/

@[simp] theorem setAt_same {α : Type} (f : Nat → α) (k : Nat) (v : α) :
    setAt f k v k = v := by
  simp [setAt]

theorem setAt_other {α : Type} (f : Nat → α) (k : Nat) (v : α) (i : Nat)
    (h : i ≠ k) : setAt f k v i = f i := by
  simp [setAt, h]

theorem stopPending_append (l l' : List PendingOp) :
    stopPending (l ++ l') = stopPending l ++ stopPending l' := by
  simp [stopPending, List.filterMap_append]

/-! Field-level equations for each branch of each operation, used by the
invariant proofs below. -/

theorem stopTimerSync_run (w : Nat) (tDur tEnd : Int) (d : String)
    (s : AppState) (st : Int) (h : (s.timers w).startTime = some st) :
    (stopTimerSync w tDur tEnd d s).workspaceCount = s.workspaceCount ∧
    (stopTimerSync w tDur tEnd d s).activeWorkspace = s.activeWorkspace ∧
    (stopTimerSync w tDur tEnd d s).timers = s.timers ∧
    (stopTimerSync w tDur tEnd d s).timerGen = s.timerGen ∧
    (stopTimerSync w tDur tEnd d s).entries = s.entries ∧
    (stopTimerSync w tDur tEnd d s).dbEntries = s.dbEntries ∧
    (stopTimerSync w tDur tEnd d s).pending = s.pending ++
      [PendingOp.stop w (s.timerGen w) (stopEntry tDur tEnd d s w st)] := by
  unfold stopTimerSync
  rw [h]
  exact ⟨rfl, rfl, rfl, rfl, rfl, rfl, rfl⟩

theorem stopTimerSync_idle_active (w : Nat) (tDur tEnd : Int) (d : String)
    (s : AppState) (h : (s.timers w).startTime = none)
    (h2 : s.activeWorkspace = some w) :
    (stopTimerSync w tDur tEnd d s).workspaceCount = s.workspaceCount ∧
    (stopTimerSync w tDur tEnd d s).activeWorkspace = none ∧
    (stopTimerSync w tDur tEnd d s).timers =
      setAt s.timers w { startTime := none, elapsed := 0 } ∧
    (stopTimerSync w tDur tEnd d s).timerGen = s.timerGen ∧
    (stopTimerSync w tDur tEnd d s).entries = s.entries ∧
    (stopTimerSync w tDur tEnd d s).dbEntries = s.dbEntries ∧
    (stopTimerSync w tDur tEnd d s).pending = s.pending := by
  unfold stopTimerSync
  rw [h, if_pos h2]
  exact ⟨rfl, rfl, rfl, rfl, rfl, rfl, rfl⟩

theorem stopTimerSync_idle_inactive (w : Nat) (tDur tEnd : Int) (d : String)
    (s : AppState) (h : (s.timers w).startTime = none)
    (h2 : ¬s.activeWorkspace = some w) :
    (stopTimerSync w tDur tEnd d s).workspaceCount = s.workspaceCount ∧
    (stopTimerSync w tDur tEnd d s).activeWorkspace = s.activeWorkspace ∧
    (stopTimerSync w tDur tEnd d s).timers =
      setAt s.timers w { startTime := none, elapsed := 0 } ∧
    (stopTimerSync w tDur tEnd d s).timerGen = s.timerGen ∧
    (stopTimerSync w tDur tEnd d s).entries = s.entries ∧
    (stopTimerSync w tDur tEnd d s).dbEntries = s.dbEntries ∧
    (stopTimerSync w tDur tEnd d s).pending = s.pending := by
  unfold stopTimerSync
  rw [h, if_neg h2]
  exact ⟨rfl, rfl, rfl, rfl, rfl, rfl, rfl⟩

theorem startTimer_eq_none (w : Nat) (tDur tEnd tStart : Int) (d : String)
    (s : AppState) (h : s.activeWorkspace = none) :
    startTimer w tDur tEnd tStart d s =
      { s with
        activeWorkspace := some w
        timers := setAt s.timers w { s.timers w with startTime := some tStart } } := by
  unfold startTimer
  rw [h]

theorem startTimer_eq_same (w : Nat) (tDur tEnd tStart : Int) (d : String)
    (s : AppState) (h : s.activeWorkspace = some w) :
    startTimer w tDur tEnd tStart d s =
      { s with
        activeWorkspace := some w
        timers := setAt s.timers w { s.timers w with startTime := some tStart } } := by
  unfold startTimer
  rw [h]
  simp

theorem startTimer_eq_other (w a : Nat) (tDur tEnd tStart : Int) (d : String)
    (s : AppState) (h : s.activeWorkspace = some a) (hne : a ≠ w) :
    startTimer w tDur tEnd tStart d s =
      { stopTimerSync a tDur tEnd d s with
        activeWorkspace := some w
        timers := setAt (stopTimerSync a tDur tEnd d s).timers w
          { (stopTimerSync a tDur tEnd d s).timers w with
            startTime := some tStart } } := by
  unfold startTimer
  rw [h]
  simp only [if_neg hne]

theorem dbResolve_nil (s : AppState) (h : s.pending = []) : dbResolve s = s := by
  unfold dbResolve
  simp only [h]

theorem dbResolve_stop_fresh_active (s : AppState) (w g : Nat) (e : Entry)
    (rest : List PendingOp) (h : s.pending = PendingOp.stop w g e :: rest)
    (hg : s.timerGen w = g) (h2 : s.activeWorkspace = some w) :
    (dbResolve s).workspaceCount = s.workspaceCount ∧
    (dbResolve s).activeWorkspace = none ∧
    (dbResolve s).timers = setAt s.timers w { startTime := none, elapsed := 0 } ∧
    (dbResolve s).timerGen = s.timerGen ∧
    (dbResolve s).entries = setAt s.entries w (e :: s.entries w) ∧
    (dbResolve s).dbEntries = s.dbEntries ++ [(w, e)] ∧
    (dbResolve s).pending = rest := by
  refine ⟨?_, ?_, ?_, ?_, ?_, ?_, ?_⟩ <;>
  · unfold dbResolve
    simp [h, hg, h2]

theorem dbResolve_stop_fresh_inactive (s : AppState) (w g : Nat) (e : Entry)
    (rest : List PendingOp) (h : s.pending = PendingOp.stop w g e :: rest)
    (hg : s.timerGen w = g) (h2 : ¬s.activeWorkspace = some w) :
    (dbResolve s).workspaceCount = s.workspaceCount ∧
    (dbResolve s).activeWorkspace = s.activeWorkspace ∧
    (dbResolve s).timers = setAt s.timers w { startTime := none, elapsed := 0 } ∧
    (dbResolve s).timerGen = s.timerGen ∧
    (dbResolve s).entries = setAt s.entries w (e :: s.entries w) ∧
    (dbResolve s).dbEntries = s.dbEntries ++ [(w, e)] ∧
    (dbResolve s).pending = rest := by
  refine ⟨?_, ?_, ?_, ?_, ?_, ?_, ?_⟩ <;>
  · unfold dbResolve
    simp [h, hg, h2]

theorem dbResolve_stop_stale_active (s : AppState) (w g : Nat) (e : Entry)
    (rest : List PendingOp) (h : s.pending = PendingOp.stop w g e :: rest)
    (hg : ¬s.timerGen w = g) (h2 : s.activeWorkspace = some w) :
    (dbResolve s).workspaceCount = s.workspaceCount ∧
    (dbResolve s).activeWorkspace = none ∧
    (dbResolve s).timers = s.timers ∧
    (dbResolve s).timerGen = s.timerGen ∧
    (dbResolve s).entries = setAt s.entries w (e :: s.entries w) ∧
    (dbResolve s).dbEntries = s.dbEntries ++ [(w, e)] ∧
    (dbResolve s).pending = rest := by
  refine ⟨?_, ?_, ?_, ?_, ?_, ?_, ?_⟩ <;>
  · unfold dbResolve
    simp [h, hg, h2]

theorem dbResolve_stop_stale_inactive (s : AppState) (w g : Nat) (e : Entry)
    (rest : List PendingOp) (h : s.pending = PendingOp.stop w g e :: rest)
    (hg : ¬s.timerGen w = g) (h2 : ¬s.activeWorkspace = some w) :
    (dbResolve s).workspaceCount = s.workspaceCount ∧
    (dbResolve s).activeWorkspace = s.activeWorkspace ∧
    (dbResolve s).timers = s.timers ∧
    (dbResolve s).timerGen = s.timerGen ∧
    (dbResolve s).entries = setAt s.entries w (e :: s.entries w) ∧
    (dbResolve s).dbEntries = s.dbEntries ++ [(w, e)] ∧
    (dbResolve s).pending = rest := by
  refine ⟨?_, ?_, ?_, ?_, ?_, ?_, ?_⟩ <;>
  · unfold dbResolve
    simp [h, hg, h2]

theorem dbResolve_clear (s : AppState) (rest : List PendingOp)
    (h : s.pending = PendingOp.clearOp :: rest) :
    (dbResolve s).workspaceCount = s.workspaceCount ∧
    (dbResolve s).activeWorkspace = s.activeWorkspace ∧
    (dbResolve s).timers = (fun i => if 1 ≤ i ∧ i ≤ s.workspaceCount then
      { startTime := none, elapsed := 0 } else s.timers i) ∧
    (dbResolve s).timerGen = (fun i => if 1 ≤ i ∧ i ≤ s.workspaceCount then
      s.timerGen i + 1 else s.timerGen i) ∧
    (dbResolve s).entries =
      (fun i => if 1 ≤ i ∧ i ≤ s.workspaceCount then [] else s.entries i) ∧
    (dbResolve s).dbEntries = [] ∧
    (dbResolve s).pending = rest := by
  refine ⟨?_, ?_, ?_, ?_, ?_, ?_, ?_⟩ <;>
  · unfold dbResolve
    simp [h]

theorem clearAllBegin_active (s : AppState) (a : Nat)
    (h : s.activeWorkspace = some a) :
    (clearAllBegin s).workspaceCount = s.workspaceCount ∧
    (clearAllBegin s).activeWorkspace = none ∧
    (clearAllBegin s).timers = setAt s.timers a { startTime := none, elapsed := 0 } ∧
    (clearAllBegin s).timerGen = s.timerGen ∧
    (clearAllBegin s).entries = s.entries ∧
    (clearAllBegin s).dbEntries = s.dbEntries ∧
    (clearAllBegin s).pending = s.pending ++ [PendingOp.clearOp] := by
  unfold clearAllBegin
  rw [h]
  exact ⟨rfl, rfl, rfl, rfl, rfl, rfl, rfl⟩

theorem clearAllBegin_none (s : AppState) (h : s.activeWorkspace = none) :
    (clearAllBegin s).workspaceCount = s.workspaceCount ∧
    (clearAllBegin s).activeWorkspace = none ∧
    (clearAllBegin s).timers = s.timers ∧
    (clearAllBegin s).timerGen = s.timerGen ∧
    (clearAllBegin s).entries = s.entries ∧
    (clearAllBegin s).dbEntries = s.dbEntries ∧
    (clearAllBegin s).pending = s.pending ++ [PendingOp.clearOp] := by
  unfold clearAllBegin
  rw [h]
  exact ⟨rfl, rfl, rfl, rfl, rfl, rfl, rfl⟩

theorem changeWorkspaceCount_eq_none (n : Nat) (tDur tEnd : Int) (d : String)
    (s : AppState) (h : s.activeWorkspace = none) :
    changeWorkspaceCount n tDur tEnd d s = { s with workspaceCount := n } := by
  unfold changeWorkspaceCount
  simp [h]

theorem changeWorkspaceCount_eq_some (n : Nat) (tDur tEnd : Int) (d : String)
    (s : AppState) (a : Nat) (h : s.activeWorkspace = some a) :
    changeWorkspaceCount n tDur tEnd d s =
      { stopTimerFull a tDur tEnd d s with workspaceCount := n } := by
  unfold changeWorkspaceCount
  simp [h]

/-! Preservation of the elapsed-accumulator invariant (full event
system). -/

theorem engineInv_stopTimerSync (w : Nat) (tDur tEnd : Int) (d : String)
    (s : AppState) (h : EngineInv s) :
    EngineInv (stopTimerSync w tDur tEnd d s) := by
  intro v
  cases hSt : (s.timers w).startTime with
  | some st =>
      obtain ⟨_, _, hT, _, _, _, _⟩ := stopTimerSync_run w tDur tEnd d s st hSt
      rw [hT]
      exact h v
  | none =>
      by_cases hA : s.activeWorkspace = some w
      · obtain ⟨_, _, hT, _, _, _, _⟩ :=
          stopTimerSync_idle_active w tDur tEnd d s hSt hA
        rw [hT]
        by_cases hvw : v = w
        · subst hvw
          rw [setAt_same]
        · rw [setAt_other _ _ _ _ hvw]
          exact h v
      · obtain ⟨_, _, hT, _, _, _, _⟩ :=
          stopTimerSync_idle_inactive w tDur tEnd d s hSt hA
        rw [hT]
        by_cases hvw : v = w
        · subst hvw
          rw [setAt_same]
        · rw [setAt_other _ _ _ _ hvw]
          exact h v

theorem engineInv_setStart (s1 : AppState) (w : Nat) (tStart : Int)
    (h : EngineInv s1) :
    EngineInv { s1 with
      activeWorkspace := some w
      timers := setAt s1.timers w { s1.timers w with startTime := some tStart } } := by
  intro v
  show (setAt s1.timers w { s1.timers w with startTime := some tStart } v).elapsed = 0
  by_cases hvw : v = w
  · subst hvw
    rw [setAt_same]
    exact h v
  · rw [setAt_other _ _ _ _ hvw]
    exact h v

theorem engineInv_startTimer (w : Nat) (tDur tEnd tStart : Int) (d : String)
    (s : AppState) (h : EngineInv s) :
    EngineInv (startTimer w tDur tEnd tStart d s) := by
  have h1 : EngineInv (match s.activeWorkspace with
      | some a => if a = w then s else stopTimerSync a tDur tEnd d s
      | none => s) := by
    cases hA : s.activeWorkspace with
    | none => exact h
    | some a =>
        show EngineInv (if a = w then s else stopTimerSync a tDur tEnd d s)
        by_cases haw : a = w
        · rw [if_pos haw]
          exact h
        · rw [if_neg haw]
          exact engineInv_stopTimerSync a tDur tEnd d s h
  exact engineInv_setStart _ w tStart h1

theorem engineInv_dbResolve (s : AppState) (h : EngineInv s) :
    EngineInv (dbResolve s) := by
  intro v
  cases hP : s.pending with
  | nil =>
      rw [dbResolve_nil s hP]
      exact h v
  | cons op rest =>
      cases op with
      | stop w g e =>
          by_cases hg : s.timerGen w = g
          · by_cases hA : s.activeWorkspace = some w
            · obtain ⟨_, _, hT, _, _, _, _⟩ :=
                dbResolve_stop_fresh_active s w g e rest hP hg hA
              rw [hT]
              by_cases hvw : v = w
              · subst hvw
                rw [setAt_same]
              · rw [setAt_other _ _ _ _ hvw]
                exact h v
            · obtain ⟨_, _, hT, _, _, _, _⟩ :=
                dbResolve_stop_fresh_inactive s w g e rest hP hg hA
              rw [hT]
              by_cases hvw : v = w
              · subst hvw
                rw [setAt_same]
              · rw [setAt_other _ _ _ _ hvw]
                exact h v
          · by_cases hA : s.activeWorkspace = some w
            · obtain ⟨_, _, hT, _, _, _, _⟩ :=
                dbResolve_stop_stale_active s w g e rest hP hg hA
              rw [hT]
              exact h v
            · obtain ⟨_, _, hT, _, _, _, _⟩ :=
                dbResolve_stop_stale_inactive s w g e rest hP hg hA
              rw [hT]
              exact h v
      | clearOp =>
          obtain ⟨_, _, hT, _, _, _, _⟩ := dbResolve_clear s rest hP
          rw [hT]
          show (if 1 ≤ v ∧ v ≤ s.workspaceCount then
            ({ startTime := none, elapsed := 0 } : Timer) else s.timers v).elapsed = 0
          by_cases hrange : 1 ≤ v ∧ v ≤ s.workspaceCount
          · rw [if_pos hrange]
          · rw [if_neg hrange]
            exact h v

theorem engineInv_clearAllBegin (s : AppState) (h : EngineInv s) :
    EngineInv (clearAllBegin s) := by
  intro v
  cases hA : s.activeWorkspace with
  | none =>
      obtain ⟨_, _, hT, _, _, _, _⟩ := clearAllBegin_none s hA
      rw [hT]
      exact h v
  | some a =>
      obtain ⟨_, _, hT, _, _, _, _⟩ := clearAllBegin_active s a hA
      rw [hT]
      by_cases hva : v = a
      · subst hva
        rw [setAt_same]
      · rw [setAt_other _ _ _ _ hva]
        exact h v

theorem engineInv_changeWorkspaceCount (n : Nat) (tDur tEnd : Int) (d : String)
    (s : AppState) (h : EngineInv s) :
    EngineInv (changeWorkspaceCount n tDur tEnd d s) := by
  cases hA : s.activeWorkspace with
  | none =>
      rw [changeWorkspaceCount_eq_none n tDur tEnd d s hA]
      exact h
  | some a =>
      rw [changeWorkspaceCount_eq_some n tDur tEnd d s a hA]
      exact engineInv_dbResolve _ (engineInv_stopTimerSync a tDur tEnd d s h)

/-- The elapsed-accumulator invariant is preserved by every event-loop
step. -/
theorem engineInv_step {s t : AppState} (hstep : Step s t) (h : EngineInv s) :
    EngineInv t := by
  cases hstep with
  | start w tDur tEnd tStart d s h1 h2 =>
      exact engineInv_startTimer w tDur tEnd tStart d s h
  | stop w tDur tEnd d s h1 h2 =>
      exact engineInv_stopTimerSync w tDur tEnd d s h
  | resolve s => exact engineInv_dbResolve s h
  | clearBegin s => exact engineInv_clearAllBegin s h
  | changeCount n tDur tEnd d s h1 hp =>
      exact engineInv_changeWorkspaceCount n tDur tEnd d s h

/-- Every reachable state has all elapsed accumulators zero. -/
theorem reachable_engineInv {s : AppState} (h : Reachable s) : EngineInv s := by
  induction h with
  | init c hc =>
      intro v
      simp [initialState]
  | step hr hstep ih => exact engineInv_step hstep ih

/-! Preservation of the single-active invariant in the clear-free event
system, where a suspended stop continuation always finds its captured
timer object still live. -/

theorem engineInvNC_stopTimerSync (w : Nat) (tDur tEnd : Int) (d : String)
    (s : AppState) (h : EngineInvNC s) :
    EngineInvNC (stopTimerSync w tDur tEnd d s) := by
  obtain ⟨hJ, hG, hC⟩ := h
  cases hSt : (s.timers w).startTime with
  | some st =>
      obtain ⟨_, hA', hT, hGen, _, _, hP⟩ := stopTimerSync_run w tDur tEnd d s st hSt
      refine ⟨?_, ?_, ?_⟩
      · intro v hv
        rw [hT] at hv
        rw [hA', hP, stopPending_append]
        rcases hJ v hv with h1 | h1
        · exact Or.inl h1
        · exact Or.inr (List.mem_append_left _ h1)
      · intro v g2 e2 hm
        rw [hP] at hm
        rw [hGen]
        rcases List.mem_append.mp hm with h1 | h1
        · exact hG v g2 e2 h1
        · rw [List.mem_singleton] at h1
          rw [PendingOp.stop.injEq] at h1
          obtain ⟨hv, hg, _⟩ := h1
          rw [hv]
          exact hg.symm
      · intro hm
        rw [hP] at hm
        rcases List.mem_append.mp hm with h1 | h1
        · exact hC h1
        · rw [List.mem_singleton] at h1
          exact PendingOp.noConfusion h1
  | none =>
      by_cases hA : s.activeWorkspace = some w
      · obtain ⟨_, hA', hT, hGen, _, _, hP⟩ :=
          stopTimerSync_idle_active w tDur tEnd d s hSt hA
        refine ⟨?_, ?_, ?_⟩
        · intro v hv
          rw [hT] at hv
          rw [hA', hP]
          by_cases hvw : v = w
          · subst hvw
            rw [setAt_same] at hv
            exact absurd rfl hv
          · rw [setAt_other _ _ _ _ hvw] at hv
            rcases hJ v hv with h1 | h1
            · rw [hA] at h1
              exact absurd (Option.some.inj h1.symm) hvw
            · exact Or.inr h1
        · intro v g2 e2 hm
          rw [hP] at hm
          rw [hGen]
          exact hG v g2 e2 hm
        · rw [hP]
          exact hC
      · obtain ⟨_, hA', hT, hGen, _, _, hP⟩ :=
          stopTimerSync_idle_inactive w tDur tEnd d s hSt hA
        refine ⟨?_, ?_, ?_⟩
        · intro v hv
          rw [hT] at hv
          rw [hA', hP]
          by_cases hvw : v = w
          · subst hvw
            rw [setAt_same] at hv
            exact absurd rfl hv
          · rw [setAt_other _ _ _ _ hvw] at hv
            exact hJ v hv
        · intro v g2 e2 hm
          rw [hP] at hm
          rw [hGen]
          exact hG v g2 e2 hm
        · rw [hP]
          exact hC

theorem engineInvNC_startTimer (w : Nat) (tDur tEnd tStart : Int) (d : String)
    (s : AppState) (h : EngineInvNC s) :
    EngineInvNC (startTimer w tDur tEnd tStart d s) := by
  obtain ⟨hJ, hG, hC⟩ := h
  cases hA : s.activeWorkspace with
  | none =>
      rw [startTimer_eq_none w tDur tEnd tStart d s hA]
      refine ⟨?_, hG, hC⟩
      intro v hv
      by_cases hvw : v = w
      · exact Or.inl (by rw [hvw])
      · simp only at hv ⊢
        rw [setAt_other _ _ _ _ hvw] at hv
        rcases hJ v hv with h1 | h1
        · rw [hA] at h1
          cases h1
        · exact Or.inr h1
  | some a =>
      by_cases haw : a = w
      · subst haw
        rw [startTimer_eq_same a tDur tEnd tStart d s hA]
        refine ⟨?_, hG, hC⟩
        intro v hv
        by_cases hvw : v = a
        · exact Or.inl (by rw [hvw])
        · simp only at hv ⊢
          rw [setAt_other _ _ _ _ hvw] at hv
          rcases hJ v hv with h1 | h1
          · rw [hA] at h1
            exact absurd (Option.some.inj h1.symm) hvw
          · exact Or.inr h1
      · rw [startTimer_eq_other w a tDur tEnd tStart d s hA haw]
        obtain ⟨hJ1, hG1, hC1⟩ :=
          engineInvNC_stopTimerSync a tDur tEnd d s ⟨hJ, hG, hC⟩
        refine ⟨?_, hG1, hC1⟩
        intro v hv
        by_cases hvw : v = w
        · exact Or.inl (by rw [hvw])
        · simp only at hv ⊢
          rw [setAt_other _ _ _ _ hvw] at hv
          rcases hJ1 v hv with h1 | h1
          · cases hSt : (s.timers a).startTime with
            | some st =>
                obtain ⟨_, hA', _, _, _, _, hP⟩ :=
                  stopTimerSync_run a tDur tEnd d s st hSt
                rw [hA', hA] at h1
                have hva := Option.some.inj h1.symm
                refine Or.inr ?_
                rw [hP, stopPending_append]
                refine List.mem_append_right _ ?_
                rw [hva]
                simp [stopPending]
            | none =>
                obtain ⟨_, hA', _, _, _, _, _⟩ :=
                  stopTimerSync_idle_active a tDur tEnd d s hSt hA
                rw [hA'] at h1
                cases h1
          · exact Or.inr h1

theorem engineInvNC_dbResolve (s : AppState) (h : EngineInvNC s) :
    EngineInvNC (dbResolve s) := by
  obtain ⟨hJ, hG, hC⟩ := h
  cases hP : s.pending with
  | nil =>
      rw [dbResolve_nil s hP]
      exact ⟨hJ, hG, hC⟩
  | cons op rest =>
      cases op with
      | clearOp =>
          refine absurd ?_ hC
          rw [hP]
          exact List.mem_cons_self _ _
      | stop w g e =>
          have hg : s.timerGen w = g := by
            refine hG w g e ?_
            rw [hP]
            exact List.mem_cons_self _ _
          have hGrest : ∀ v g2 e2, PendingOp.stop v g2 e2 ∈ rest →
              s.timerGen v = g2 := by
            intro v g2 e2 hm
            refine hG v g2 e2 ?_
            rw [hP]
            exact List.mem_cons_of_mem _ hm
          have hCrest : PendingOp.clearOp ∉ rest := by
            intro hm
            refine hC ?_
            rw [hP]
            exact List.mem_cons_of_mem _ hm
          have hJrest : ∀ v, v ≠ w → (s.timers v).startTime ≠ none →
              s.activeWorkspace = some v ∨ v ∈ stopPending rest := by
            intro v hvw hv
            rcases hJ v hv with h1 | h1
            · exact Or.inl h1
            · rw [hP] at h1
              simp only [stopPending, List.filterMap_cons] at h1
              simp only [List.mem_cons] at h1
              rcases h1 with h1 | h1
              · exact absurd h1 hvw
              · exact Or.inr h1
          by_cases hA : s.activeWorkspace = some w
          · obtain ⟨_, hA', hT, hGen, _, _, hP'⟩ :=
              dbResolve_stop_fresh_active s w g e rest hP hg hA
            refine ⟨?_, ?_, ?_⟩
            · intro v hv
              rw [hT] at hv
              rw [hA', hP']
              by_cases hvw : v = w
              · subst hvw
                rw [setAt_same] at hv
                exact absurd rfl hv
              · rw [setAt_other _ _ _ _ hvw] at hv
                rcases hJrest v hvw hv with h1 | h1
                · rw [hA] at h1
                  exact absurd (Option.some.inj h1.symm) hvw
                · exact Or.inr h1
            · intro v g2 e2 hm
              rw [hP'] at hm
              rw [hGen]
              exact hGrest v g2 e2 hm
            · rw [hP']
              exact hCrest
          · obtain ⟨_, hA', hT, hGen, _, _, hP'⟩ :=
              dbResolve_stop_fresh_inactive s w g e rest hP hg hA
            refine ⟨?_, ?_, ?_⟩
            · intro v hv
              rw [hT] at hv
              rw [hA', hP']
              by_cases hvw : v = w
              · subst hvw
                rw [setAt_same] at hv
                exact absurd rfl hv
              · rw [setAt_other _ _ _ _ hvw] at hv
                exact hJrest v hvw hv
            · intro v g2 e2 hm
              rw [hP'] at hm
              rw [hGen]
              exact hGrest v g2 e2 hm
            · rw [hP']
              exact hCrest

theorem engineInvNC_changeWorkspaceCount (n : Nat) (tDur tEnd : Int)
    (d : String) (s : AppState) (h : EngineInvNC s) :
    EngineInvNC (changeWorkspaceCount n tDur tEnd d s) := by
  cases hA : s.activeWorkspace with
  | none =>
      rw [changeWorkspaceCount_eq_none n tDur tEnd d s hA]
      obtain ⟨hJ, hG, hC⟩ := h
      exact ⟨hJ, hG, hC⟩
  | some a =>
      rw [changeWorkspaceCount_eq_some n tDur tEnd d s a hA]
      obtain ⟨hJ, hG, hC⟩ :=
        engineInvNC_dbResolve _ (engineInvNC_stopTimerSync a tDur tEnd d s h)
      exact ⟨hJ, hG, hC⟩

/-- Every state reachable without clear-all satisfies the single-active
invariant. -/
theorem reachableNC_engineInvNC {s : AppState} (h : ReachableNoClear s) :
    EngineInvNC s := by
  induction h with
  | init c hc =>
      refine ⟨?_, ?_, ?_⟩
      · intro v hv
        simp [initialState] at hv
      · intro v g e hm
        simp [initialState] at hm
      · intro hm
        simp [initialState] at hm
  | start hr w tDur tEnd tStart d h1 h2 ih =>
      exact engineInvNC_startTimer w tDur tEnd tStart d _ ih
  | stop hr w tDur tEnd d h1 h2 ih =>
      exact engineInvNC_stopTimerSync w tDur tEnd d _ ih
  | resolve hr ih => exact engineInvNC_dbResolve _ ih
  | changeCount hr n tDur tEnd d h1 hp ih =>
      exact engineInvNC_changeWorkspaceCount n tDur tEnd d _ ih

/-- C1 (amended): in every state reachable without the clear-all
operation in which no persistence operation is in flight, every workspace
whose `startTime` is non-null is the active workspace; hence at most one
workspace is running, and when `ActiveWorkspace` is null no workspace is
running.  The invariant does NOT hold at every instant (`startTimer` does
not await the stop it initiates, so two workspaces hold non-null
`startTime` while the stop persistence is in flight), and it does not
survive clear-all: a stop continuation whose timer object was replaced by
`clearAll` (main.js:630) writes its reset through a stale alias
(main.js:382-383), so even quiescent states reached through a clear race
violate it — see the counterexample. -/
theorem single_active_quiescent {s : AppState} (h : ReachableNoClear s)
    (hq : s.pending = []) :
    (∀ w, (s.timers w).startTime ≠ none → s.activeWorkspace = some w) ∧
    (∀ w v, (s.timers w).startTime ≠ none → (s.timers v).startTime ≠ none →
      w = v) ∧
    (s.activeWorkspace = none → ∀ w, (s.timers w).startTime = none) := by
  obtain ⟨hJ, _, _⟩ := reachableNC_engineInvNC h
  have hJ' : ∀ w, (s.timers w).startTime ≠ none → s.activeWorkspace = some w := by
    intro w hw
    rcases hJ w hw with h1 | h1
    · exact h1
    · rw [hq] at h1
      simp [stopPending] at h1
  refine ⟨hJ', ?_, ?_⟩
  · intro w v hw hv
    exact Option.some.inj ((hJ' w hw).symm.trans (hJ' v hv))
  · intro hA w
    by_contra hw
    rw [hJ' w hw] at hA
    cases hA

/-- C1 (witness): applying the quiescent invariant to the concrete
clear-free reachable state in which workspace 1 was started at
instant 100. -/
theorem single_active_quiescent_witness :
    (startTimer 1 100 100 100 "" (initialState 1)).activeWorkspace = some 1 :=
  (single_active_quiescent
    (ReachableNoClear.start (ReachableNoClear.init 1 (by decide)) 1 100 100 100
      "" (by decide) (by decide))
    rfl).1 1 (by decide)

/-- C1 (counterexample): the claim as stated — at most one non-null
`startTime` at every point, with `ActiveWorkspace` the running workspace or
null — is false, in three ways.  (i) Clicking start on workspace 1 at
instant 100 and then start on workspace 2 at instant 200 reaches a state
(workspace 1's stop persistence still in flight) in which BOTH workspaces
hold a non-null `startTime`.  (ii) The quiescent clear-race state `raceS8`
is reachable with an empty queue, a null `ActiveWorkspace` and workspace 1
still running (its stop continuation reset a stale alias).  (iii) One more
start click from there (`raceS9`) gives a quiescent reachable state with
TWO workspaces running at once. -/
theorem single_active_counterexample :
    (Reachable (startTimer 2 200 200 200 "" (startTimer 1 100 100 100 ""
        (initialState 2))) ∧
      ((startTimer 2 200 200 200 "" (startTimer 1 100 100 100 ""
        (initialState 2))).timers 1).startTime = some 100 ∧
      ((startTimer 2 200 200 200 "" (startTimer 1 100 100 100 ""
        (initialState 2))).timers 2).startTime = some 200 ∧
      (1 : Nat) ≠ 2) ∧
    (Reachable raceS8 ∧ raceS8.pending = [] ∧
      raceS8.activeWorkspace = none ∧
      (raceS8.timers 1).startTime = some 500) ∧
    (Reachable raceS9 ∧ raceS9.pending = [] ∧
      (raceS9.timers 1).startTime = some 500 ∧
      (raceS9.timers 2).startTime = some 600 ∧ (1 : Nat) ≠ 2) := by
  have hr8 : Reachable raceS8 :=
    Reachable.step (Reachable.step (Reachable.step (Reachable.step
      (Reachable.step (Reachable.step (Reachable.step (Reachable.step
        (Reachable.init 2 (by decide))
        (Step.clearBegin (initialState 2)))
        (Step.start 1 100 100 100 "" raceS1 (by decide) (by decide)))
        (Step.stop 1 200 200 "" raceS2 (by decide) (by decide)))
        (Step.resolve raceS3))
        (Step.start 2 300 300 300 "" raceS4 (by decide) (by decide)))
        (Step.start 1 400 400 500 "" raceS5 (by decide) (by decide)))
        (Step.resolve raceS6))
        (Step.resolve raceS7)
  refine ⟨⟨Reachable.step (Reachable.step (Reachable.init 2 (by decide))
      (Step.start 1 100 100 100 "" (initialState 2) (by decide) (by decide)))
      (Step.start 2 200 200 200 "" (startTimer 1 100 100 100 "" (initialState 2))
        (by decide) (by decide)), ?_, ?_, ?_⟩,
    ⟨hr8, ?_, ?_, ?_⟩,
    ⟨Reachable.step hr8 (Step.start 2 600 600 600 "" raceS8 (by decide)
      (by decide)), ?_, ?_, ?_, ?_⟩⟩ <;> decide

/-- C2 (amended): starting workspace `b` while a distinct workspace `a` is
running synchronously constructs `a`'s final entry (with `a`'s accumulated
duration `elapsed + (tDur - st)`) and enqueues its persistence BEFORE `b`'s
`startTime` is set, but the persistence completes — and `a`'s `startTime`
is cleared — only when the database later resolves, which is AFTER `b`'s
`startTime` is set; exactly one entry for `a` is then appended to
storage. -/
theorem start_other_initiates_flush (s : AppState) (a b : Nat)
    (tDur tEnd tStart : Int) (d : String) (st : Int)
    (ha : s.activeWorkspace = some a) (hab : a ≠ b)
    (hst : (s.timers a).startTime = some st) :
    (startTimer b tDur tEnd tStart d s).pending = s.pending ++
      [PendingOp.stop a (s.timerGen a) (stopEntry tDur tEnd d s a st)] ∧
    ((startTimer b tDur tEnd tStart d s).timers b).startTime = some tStart ∧
    ((startTimer b tDur tEnd tStart d s).timers a).startTime = some st ∧
    (startTimer b tDur tEnd tStart d s).dbEntries = s.dbEntries ∧
    (startTimer b tDur tEnd tStart d s).entries = s.entries ∧
    (s.pending = [] →
      (dbResolve (startTimer b tDur tEnd tStart d s)).dbEntries =
        s.dbEntries ++ [(a, stopEntry tDur tEnd d s a st)] ∧
      (dbResolve (startTimer b tDur tEnd tStart d s)).entries a =
        stopEntry tDur tEnd d s a st :: s.entries a ∧
      ((dbResolve (startTimer b tDur tEnd tStart d s)).timers a).startTime = none ∧
      ((dbResolve (startTimer b tDur tEnd tStart d s)).timers b).startTime =
        some tStart ∧
      (dbResolve (startTimer b tDur tEnd tStart d s)).activeWorkspace = some b) := by
  obtain ⟨hC, hA', hT, hGen, hE', hD, hP⟩ := stopTimerSync_run a tDur tEnd d s st hst
  rw [startTimer_eq_other b a tDur tEnd tStart d s ha hab]
  have hba : b ≠ a := fun hx => hab hx.symm
  refine ⟨hP, ?_, ?_, hD, hE', ?_⟩
  · show ((setAt (stopTimerSync a tDur tEnd d s).timers b
      { (stopTimerSync a tDur tEnd d s).timers b with
        startTime := some tStart }) b).startTime = some tStart
    rw [setAt_same]
  · show ((setAt (stopTimerSync a tDur tEnd d s).timers b
      { (stopTimerSync a tDur tEnd d s).timers b with
        startTime := some tStart }) a).startTime = some st
    rw [setAt_other _ _ _ _ hab, hT, hst]
  · intro hq
    have hP' : ({ stopTimerSync a tDur tEnd d s with
        activeWorkspace := some b
        timers := setAt (stopTimerSync a tDur tEnd d s).timers b
          { (stopTimerSync a tDur tEnd d s).timers b with
            startTime := some tStart } } :
        AppState).pending =
        PendingOp.stop a (s.timerGen a) (stopEntry tDur tEnd d s a st) :: [] := by
      show (stopTimerSync a tDur tEnd d s).pending = _
      rw [hP, hq]
      rfl
    have hg' : ({ stopTimerSync a tDur tEnd d s with
        activeWorkspace := some b
        timers := setAt (stopTimerSync a tDur tEnd d s).timers b
          { (stopTimerSync a tDur tEnd d s).timers b with
            startTime := some tStart } } :
        AppState).timerGen a = s.timerGen a := by
      show (stopTimerSync a tDur tEnd d s).timerGen a = s.timerGen a
      rw [hGen]
    have hA2 : ¬({ stopTimerSync a tDur tEnd d s with
        activeWorkspace := some b
        timers := setAt (stopTimerSync a tDur tEnd d s).timers b
          { (stopTimerSync a tDur tEnd d s).timers b with
            startTime := some tStart } } :
        AppState).activeWorkspace = some a := by
      show ¬(some b = some a)
      intro hx
      exact hba (Option.some.inj hx)
    obtain ⟨_, hA3, hT3, _, hE3, hD3, _⟩ :=
      dbResolve_stop_fresh_inactive _ a (s.timerGen a)
        (stopEntry tDur tEnd d s a st) [] hP' hg' hA2
    refine ⟨?_, ?_, ?_, ?_, ?_⟩
    · rw [hD3]
      show (stopTimerSync a tDur tEnd d s).dbEntries ++ _ = _
      rw [hD]
    · rw [hE3, setAt_same]
      show stopEntry tDur tEnd d s a st ::
        (stopTimerSync a tDur tEnd d s).entries a = _
      rw [hE']
    · rw [hT3, setAt_same]
    · rw [hT3, setAt_other _ _ _ _ hba]
      show ((setAt (stopTimerSync a tDur tEnd d s).timers b
        { (stopTimerSync a tDur tEnd d s).timers b with
          startTime := some tStart }) b).startTime = some tStart
      rw [setAt_same]
    · rw [hA3]

/-- C2 (witness): the amended theorem applied to the concrete reachable
state in which workspace 1 was started at instant 100 and workspace 2's
start is clicked at instant 200. -/
theorem start_other_initiates_flush_witness :
    (dbResolve (startTimer 2 200 200 200 "" (startTimer 1 100 100 100 ""
        (initialState 2)))).dbEntries =
      (startTimer 1 100 100 100 "" (initialState 2)).dbEntries ++
        [(1, stopEntry 200 200 "" (startTimer 1 100 100 100 ""
          (initialState 2)) 1 100)] :=
  ((start_other_initiates_flush (startTimer 1 100 100 100 "" (initialState 2))
    1 2 200 200 200 "" 100 (by decide) (by decide) (by decide)).2.2.2.2.2 rfl).1

/-- C2 (counterexample): the claim as stated — `start(b)` first FULLY stops
`a`, persisting its entry, before `b`'s `startTime` is set — is false.
After start(1)@100 then start(2)@200, workspace 2's `startTime` is already
set while workspace 1's `startTime` is still non-null and nothing has been
persisted. -/
theorem start_other_not_atomic_counterexample :
    Reachable (startTimer 2 200 200 200 "" (startTimer 1 100 100 100 ""
      (initialState 2))) ∧
    ((startTimer 2 200 200 200 "" (startTimer 1 100 100 100 ""
      (initialState 2))).timers 2).startTime = some 200 ∧
    ((startTimer 2 200 200 200 "" (startTimer 1 100 100 100 ""
      (initialState 2))).timers 1).startTime ≠ none ∧
    (startTimer 2 200 200 200 "" (startTimer 1 100 100 100 ""
      (initialState 2))).dbEntries = [] := by
  refine ⟨Reachable.step (Reachable.step (Reachable.init 2 (by decide))
    (Step.start 1 100 100 100 "" (initialState 2) (by decide) (by decide)))
    (Step.start 2 200 200 200 "" (startTimer 1 100 100 100 "" (initialState 2))
      (by decide) (by decide)), ?_, ?_, ?_⟩ <;> decide

/-- C3 (amended): calling start on the already-active workspace does not
stop it, flush an entry, or touch any other state, but it DOES reassign
the workspace's `startTime` to the current instant, restarting the running
clock (the elapsed accumulator stays as it was, so the time since the
original start is discarded). -/
theorem start_already_active_restarts (w : Nat) (tDur tEnd tStart : Int)
    (d : String) (s : AppState) (h : s.activeWorkspace = some w) :
    (startTimer w tDur tEnd tStart d s).activeWorkspace = some w ∧
    ((startTimer w tDur tEnd tStart d s).timers w).startTime = some tStart ∧
    ((startTimer w tDur tEnd tStart d s).timers w).elapsed =
      (s.timers w).elapsed ∧
    (∀ v, v ≠ w → (startTimer w tDur tEnd tStart d s).timers v = s.timers v) ∧
    (startTimer w tDur tEnd tStart d s).entries = s.entries ∧
    (startTimer w tDur tEnd tStart d s).dbEntries = s.dbEntries ∧
    (startTimer w tDur tEnd tStart d s).pending = s.pending := by
  rw [startTimer_eq_same w tDur tEnd tStart d s h]
  refine ⟨rfl, ?_, ?_, ?_, rfl, rfl, rfl⟩
  · show ((setAt s.timers w { s.timers w with
      startTime := some tStart }) w).startTime = some tStart
    rw [setAt_same]
  · show ((setAt s.timers w { s.timers w with
      startTime := some tStart }) w).elapsed = (s.timers w).elapsed
    rw [setAt_same]
  · intro v hv
    show setAt s.timers w { s.timers w with startTime := some tStart } v =
      s.timers v
    rw [setAt_other _ _ _ _ hv]

/-- C3 (witness): the amended theorem applied to the concrete state in
which workspace 1 is already running since instant 100 and start is
clicked again at instant 200. -/
theorem start_already_active_restarts_witness :
    ((startTimer 1 200 200 200 "" (startTimer 1 100 100 100 ""
      (initialState 1))).timers 1).startTime = some 200 :=
  (start_already_active_restarts 1 200 200 200 ""
    (startTimer 1 100 100 100 "" (initialState 1)) (by decide)).2.1

/-- C3 (counterexample): the claim as stated — starting an already-active
workspace is a no-op that does not change its `startTime` — is false:
with workspace 1 active since instant 100, clicking start again at
instant 200 changes its `startTime` from `some 100` to `some 200`. -/
theorem start_already_active_counterexample :
    Reachable (startTimer 1 100 100 100 "" (initialState 1)) ∧
    (startTimer 1 100 100 100 "" (initialState 1)).activeWorkspace = some 1 ∧
    ((startTimer 1 100 100 100 "" (initialState 1)).timers 1).startTime =
      some 100 ∧
    ((startTimer 1 200 200 200 "" (startTimer 1 100 100 100 ""
      (initialState 1))).timers 1).startTime = some 200 ∧
    some (200 : Int) ≠ some (100 : Int) := by
  refine ⟨Reachable.step (Reachable.init 1 (by decide))
    (Step.start 1 100 100 100 "" (initialState 1) (by decide) (by decide)),
    ?_, ?_, ?_, ?_⟩ <;> decide

/-- C4 (amended): stopping a running timer (recorded start `st`, zero
accumulator — true in every reachable state, see the C10 theorem) builds
its entry from TWO clock reads: `tDur` (the `Date.now()` of main.js:353)
fixes the duration and `tEnd` (the later `new Date()` of main.js:360)
fixes the endTime.  Exactly one entry is constructed and persisted, with
`startTime = st`, `endTime = tEnd` and
`duration = (endTime - startTime) - (tEnd - tDur)`: the claimed identity
`durationMs = endTime - startTime` holds exactly iff the clock did not
tick between the two reads, and in general the duration undercounts the
span by the tick `tEnd - tDur`, with `duration ≤ endTime - startTime` and
`startTime ≤ endTime`.  The entry read back from storage after the resolve
is that same entry. -/
theorem stop_entry_duration (s : AppState) (w : Nat) (st tDur tEnd : Int)
    (d : String)
    (hst : (s.timers w).startTime = some st) (hel : (s.timers w).elapsed = 0)
    (hle1 : st ≤ tDur) (hle2 : tDur ≤ tEnd) (hp : s.pending = []) :
    (stopTimerSync w tDur tEnd d s).pending =
      [PendingOp.stop w (s.timerGen w) (stopEntry tDur tEnd d s w st)] ∧
    (stopEntry tDur tEnd d s w st).startTime = st ∧
    (stopEntry tDur tEnd d s w st).endTime = tEnd ∧
    (stopEntry tDur tEnd d s w st).duration =
      ((stopEntry tDur tEnd d s w st).endTime -
        (stopEntry tDur tEnd d s w st).startTime) - (tEnd - tDur) ∧
    (stopEntry tDur tEnd d s w st).duration ≤
      (stopEntry tDur tEnd d s w st).endTime -
        (stopEntry tDur tEnd d s w st).startTime ∧
    (tDur = tEnd → (stopEntry tDur tEnd d s w st).duration =
      (stopEntry tDur tEnd d s w st).endTime -
        (stopEntry tDur tEnd d s w st).startTime) ∧
    (stopEntry tDur tEnd d s w st).startTime ≤
      (stopEntry tDur tEnd d s w st).endTime ∧
    (dbResolve (stopTimerSync w tDur tEnd d s)).dbEntries =
      s.dbEntries ++ [(w, stopEntry tDur tEnd d s w st)] ∧
    (dbResolve (stopTimerSync w tDur tEnd d s)).entries w =
      stopEntry tDur tEnd d s w st :: s.entries w := by
  obtain ⟨hC, hA', hT, hGen, hE', hD, hP⟩ := stopTimerSync_run w tDur tEnd d s st hst
  have hP1 : (stopTimerSync w tDur tEnd d s).pending =
      PendingOp.stop w (s.timerGen w) (stopEntry tDur tEnd d s w st) :: [] := by
    rw [hP, hp]
    rfl
  have hdur : (stopEntry tDur tEnd d s w st).duration =
      ((stopEntry tDur tEnd d s w st).endTime -
        (stopEntry tDur tEnd d s w st).startTime) - (tEnd - tDur) := by
    show (s.timers w).elapsed + (tDur - st) = (tEnd - st) - (tEnd - tDur)
    rw [hel]
    ring
  have hmono : (stopEntry tDur tEnd d s w st).duration ≤
      (stopEntry tDur tEnd d s w st).endTime -
        (stopEntry tDur tEnd d s w st).startTime := by
    show (s.timers w).elapsed + (tDur - st) ≤ tEnd - st
    rw [hel]
    omega
  have hexact : tDur = tEnd → (stopEntry tDur tEnd d s w st).duration =
      (stopEntry tDur tEnd d s w st).endTime -
        (stopEntry tDur tEnd d s w st).startTime := by
    intro he
    show (s.timers w).elapsed + (tDur - st) = tEnd - st
    rw [hel, he]
    ring
  have hg1 : (stopTimerSync w tDur tEnd d s).timerGen w = s.timerGen w := by
    rw [hGen]
  have hresolve :
      (dbResolve (stopTimerSync w tDur tEnd d s)).dbEntries =
        s.dbEntries ++ [(w, stopEntry tDur tEnd d s w st)] ∧
      (dbResolve (stopTimerSync w tDur tEnd d s)).entries w =
        stopEntry tDur tEnd d s w st :: s.entries w := by
    by_cases hA : (stopTimerSync w tDur tEnd d s).activeWorkspace = some w
    · obtain ⟨_, _, _, _, hE3, hD3, _⟩ :=
        dbResolve_stop_fresh_active _ w (s.timerGen w)
          (stopEntry tDur tEnd d s w st) [] hP1 hg1 hA
      constructor
      · rw [hD3, hD]
      · rw [hE3, setAt_same, hE']
    · obtain ⟨_, _, _, _, hE3, hD3, _⟩ :=
        dbResolve_stop_fresh_inactive _ w (s.timerGen w)
          (stopEntry tDur tEnd d s w st) [] hP1 hg1 hA
      constructor
      · rw [hD3, hD]
      · rw [hE3, setAt_same, hE']
  exact ⟨hP1, rfl, rfl, hdur, hmono, hexact, le_trans hle1 hle2,
    hresolve.1, hresolve.2⟩

/-- C4 (witness): the amended theorem applied to the concrete reachable
state in which workspace 1 runs since instant 100 and stop is clicked with
the duration read at instant 250 and the endTime read at instant 251. -/
theorem stop_entry_duration_witness :
    (stopEntry 250 251 "x" (startTimer 1 100 100 100 ""
      (initialState 1)) 1 100).duration =
      ((stopEntry 250 251 "x" (startTimer 1 100 100 100 ""
        (initialState 1)) 1 100).endTime -
       (stopEntry 250 251 "x" (startTimer 1 100 100 100 ""
        (initialState 1)) 1 100).startTime) - (251 - 250) :=
  (stop_entry_duration (startTimer 1 100 100 100 "" (initialState 1)) 1 100
    250 251 "x" (by decide) (by decide) (by decide) (by decide) rfl).2.2.2.1

/-- C4 (counterexample): the claim as stated — the persisted entry has
`durationMs` equal to `endTime - startTime` EXACTLY — is false when the
millisecond clock ticks between the `Date.now()` read of main.js:353 and
the `new Date()` read of main.js:360: starting workspace 1 at instant 100
and stopping it with the two reads at 250 and 251 persists an entry with
`startTime = 100` and `endTime = 251` but `duration = 150`, and
`150 ≠ 251 - 100`. -/
theorem stop_entry_exact_counterexample :
    Reachable (stopTimerSync 1 250 251 "" (startTimer 1 100 100 100 ""
      (initialState 1))) ∧
    (stopTimerSync 1 250 251 "" (startTimer 1 100 100 100 ""
      (initialState 1))).pending =
      [PendingOp.stop 1 0 { startTime := 100, endTime := 251, duration := 150, description := "No description" }] ∧
    (dbResolve (stopTimerSync 1 250 251 "" (startTimer 1 100 100 100 ""
      (initialState 1)))).dbEntries =
      [(1, ({ startTime := 100, endTime := 251, duration := 150, description := "No description" } : Entry))] ∧
    (150 : Int) ≠ 251 - 100 := by
  refine ⟨Reachable.step (Reachable.step (Reachable.init 1 (by decide))
    (Step.start 1 100 100 100 "" (initialState 1) (by decide) (by decide)))
    (Step.stop 1 250 251 "" (startTimer 1 100 100 100 "" (initialState 1))
      (by decide) (by decide)), ?_, ?_, ?_⟩ <;> decide

/-- C10: in every reachable state every workspace's elapsed accumulator is
zero, so the effective elapsed time of a timer is exactly `now - startTime`
when it runs and `0` when it does not, and the banked-time term of the
duration formula is always zero. -/
theorem elapsed_always_zero {s : AppState} (h : Reachable s) :
    (∀ w, (s.timers w).elapsed = 0) ∧
    (∀ w (now : Int), liveElapsed now (s.timers w) =
      match (s.timers w).startTime with
      | some st => now - st
      | none => 0) := by
  have hE := reachable_engineInv h
  refine ⟨hE, ?_⟩
  intro w now
  unfold liveElapsed
  cases hst : (s.timers w).startTime with
  | some st =>
      rw [hE w]
      ring
  | none => rw [hE w]

/-- C10 (witness): the invariant applied to the concrete reachable state
reached by starting workspace 1 and then stopping it with the database
resolve completed. -/
theorem elapsed_always_zero_witness :
    ((dbResolve (stopTimerSync 1 250 250 "" (startTimer 1 100 100 100 ""
      (initialState 1)))).timers 1).elapsed = 0 :=
  (elapsed_always_zero
    (Reachable.step (Reachable.step (Reachable.step (Reachable.init 1
      (by decide))
      (Step.start 1 100 100 100 "" (initialState 1) (by decide) (by decide)))
      (Step.stop 1 250 250 "" (startTimer 1 100 100 100 "" (initialState 1))
        (by decide) (by decide)))
      (Step.resolve (stopTimerSync 1 250 250 "" (startTimer 1 100 100 100 ""
        (initialState 1)))))).1 1

/-! Order-theoretic facts about the lexicographic comparison used by the
CSV sort comparator. -/

theorem ltCh_trans : ∀ (x y z : List Char),
    ltCh x y = true → ltCh y z = true → ltCh x z = true := by
  intro x
  induction x with
  | nil =>
      intro y z hxy hyz
      cases y with
      | nil => simp [ltCh] at hxy
      | cons b bs =>
          cases z with
          | nil => simp [ltCh] at hyz
          | cons c cs => simp [ltCh]
  | cons a as ih =>
      intro y z hxy hyz
      cases y with
      | nil => simp [ltCh] at hxy
      | cons b bs =>
          cases z with
          | nil => simp [ltCh] at hyz
          | cons c cs =>
              simp only [ltCh] at hxy hyz ⊢
              by_cases hab : a < b
              · by_cases hbc : b < c
                · rw [if_pos (lt_trans hab hbc)]
                · by_cases hcb : c < b
                  · rw [if_neg hbc, if_pos hcb] at hyz
                    cases hyz
                  · have hbceq : b = c := le_antisymm (not_lt.mp hcb) (not_lt.mp hbc)
                    subst hbceq
                    rw [if_pos hab]
              · by_cases hba : b < a
                · rw [if_neg hab, if_pos hba] at hxy
                  cases hxy
                · have habeq : a = b := le_antisymm (not_lt.mp hba) (not_lt.mp hab)
                  subst habeq
                  rw [if_neg hab, if_neg hba] at hxy
                  by_cases hac : a < c
                  · rw [if_pos hac]
                  · by_cases hca : c < a
                    · rw [if_neg hac, if_pos hca] at hyz
                      cases hyz
                    · have haceq : a = c := le_antisymm (not_lt.mp hca) (not_lt.mp hac)
                      subst haceq
                      rw [if_neg hac, if_neg hca] at hyz ⊢
                      exact ih bs cs hxy hyz

theorem ltCh_eq_of_not : ∀ (x y : List Char),
    ltCh x y = false → ltCh y x = false → x = y := by
  intro x
  induction x with
  | nil =>
      intro y h1 h2
      cases y with
      | nil => rfl
      | cons b bs => simp [ltCh] at h1
  | cons a as ih =>
      intro y h1 h2
      cases y with
      | nil => simp [ltCh] at h2
      | cons b bs =>
          simp only [ltCh] at h1 h2
          by_cases hab : a < b
          · rw [if_pos hab] at h1
            cases h1
          · by_cases hba : b < a
            · rw [if_pos hba] at h2
              cases h2
            · have habeq : a = b := le_antisymm (not_lt.mp hba) (not_lt.mp hab)
              subst habeq
              rw [if_neg hab, if_neg hba] at h1
              rw [if_neg hba, if_neg hab] at h2
              rw [ih bs h1 h2]

theorem ltCh_asymm : ∀ (x y : List Char),
    ltCh x y = true → ltCh y x = false := by
  intro x
  induction x with
  | nil =>
      intro y hxy
      cases y with
      | nil => simp [ltCh] at hxy
      | cons b bs => rfl
  | cons a as ih =>
      intro y hxy
      cases y with
      | nil => simp [ltCh] at hxy
      | cons b bs =>
          simp only [ltCh] at hxy ⊢
          by_cases hab : a < b
          · rw [if_neg (lt_asymm hab), if_pos hab]
          · by_cases hba : b < a
            · rw [if_neg hab, if_pos hba] at hxy
              cases hxy
            · have habeq : a = b := le_antisymm (not_lt.mp hba) (not_lt.mp hab)
              subst habeq
              rw [if_neg hab, if_neg hab] at hxy ⊢
              exact ih bs hxy

theorem ltCh_false_trans (x y z : List Char) (h1 : ltCh x y = false)
    (h2 : ltCh y z = false) : ltCh x z = false := by
  by_contra hxz
  have hxz' : ltCh x z = true := by
    revert hxz
    cases ltCh x z <;> simp
  by_cases hzy : ltCh z y = true
  · rw [ltCh_trans x z y hxz' hzy] at h1
    cases h1
  · have hzy' : ltCh z y = false := by
      revert hzy
      cases ltCh z y <;> simp
    have : y = z := ltCh_eq_of_not y z h2 hzy'
    subst this
    rw [hxz'] at h1
    cases h1

theorem csvLe_iff (a b : CsvRow) : csvLe a b ↔
    (ltCh b.date.data a.date.data = true ∨
      (b.date = a.date ∧ ltCh a.startTime.data b.startTime.data = false)) := by
  unfold csvLe csvLeB
  rw [Bool.or_eq_true, Bool.and_eq_true, Bool.not_eq_true', decide_eq_true_eq]

theorem csvLe_total (a b : CsvRow) : csvLe a b ∨ csvLe b a := by
  rw [csvLe_iff, csvLe_iff]
  by_cases h1 : ltCh b.date.data a.date.data = true
  · exact Or.inl (Or.inl h1)
  · have h1' : ltCh b.date.data a.date.data = false := by
      revert h1
      cases ltCh b.date.data a.date.data <;> simp
    by_cases h2 : ltCh a.date.data b.date.data = true
    · exact Or.inr (Or.inl h2)
    · have h2' : ltCh a.date.data b.date.data = false := by
        revert h2
        cases ltCh a.date.data b.date.data <;> simp
      have hdata : b.date.data = a.date.data := ltCh_eq_of_not _ _ h1' h2'
      have hdate : b.date = a.date := String.ext hdata
      by_cases h3 : ltCh a.startTime.data b.startTime.data = true
      · exact Or.inr (Or.inr ⟨hdate.symm, ltCh_asymm _ _ h3⟩)
      · have h3' : ltCh a.startTime.data b.startTime.data = false := by
          revert h3
          cases ltCh a.startTime.data b.startTime.data <;> simp
        exact Or.inl (Or.inr ⟨hdate, h3'⟩)

theorem csvLe_trans (a b c : CsvRow) (hab : csvLe a b) (hbc : csvLe b c) :
    csvLe a c := by
  rw [csvLe_iff] at hab hbc ⊢
  rcases hab with h1 | ⟨hd1, hs1⟩
  · rcases hbc with h2 | ⟨hd2, hs2⟩
    · exact Or.inl (ltCh_trans _ _ _ h2 h1)
    · refine Or.inl ?_
      have : c.date.data = b.date.data := congrArg String.data hd2
      rw [this]
      exact h1
  · rcases hbc with h2 | ⟨hd2, hs2⟩
    · refine Or.inl ?_
      have : b.date.data = a.date.data := congrArg String.data hd1
      rw [← this]
      exact h2
    · exact Or.inr ⟨hd2.trans hd1, ltCh_false_trans _ _ _ hs1 hs2⟩

/-- C5 (amended): a successful CSV export always consists of the header
line followed by one rendered line per flattened entry row, the rows being
a permutation of the flattened rows ordered descending by the
(rendered date, rendered start time) lexicographic comparator; each row
comes from an entry of an exposed workspace via `csvRowOf` — whose date
field is the UTC calendar date of the entry's `startTime` and whose time
fields are local times of day — and `renderRow` quote-wraps the workspace
name verbatim (interior quotes NOT doubled), quote-wraps the description
with interior quotes doubled, and leaves the time and numeric fields
unquoted. -/
theorem exportToCSV_amended (tz : Int) (count : Nat) (names : Nat → String)
    (entries : Nat → List Entry) (lines : List String)
    (h : exportToCSV tz count names entries = Except.ok lines) :
    ∃ rows : List CsvRow,
      rows ≠ [] ∧
      lines = csvHeader :: rows.map renderRow ∧
      rows.Perm (buildRows tz count names entries) ∧
      List.Sorted csvLe rows ∧
      (∀ r ∈ rows, ∃ i, i ∈ List.range' 1 count ∧ ∃ e ∈ entries i,
        r = csvRowOf tz (nameOrDefault names i) e) ∧
      (∀ r ∈ rows, renderRow r =
        "\"" ++ r.workspace ++ "\"" ++ "," ++ r.date ++ "," ++ r.startTime ++
        "," ++ r.endTime ++ "," ++ r.duration ++ "," ++
        toString r.durationSeconds ++ "," ++ "\"" ++
        jsReplaceQuotes r.description ++ "\"") := by
  unfold exportToCSV at h
  by_cases hlen : (List.insertionSort csvLe (buildRows tz count names entries)).length = 0
  · rw [if_pos hlen] at h
    cases h
  · rw [if_neg hlen] at h
    have hl : lines = csvHeader ::
        (List.insertionSort csvLe (buildRows tz count names entries)).map renderRow :=
      (Except.ok.inj h).symm
    refine ⟨List.insertionSort csvLe (buildRows tz count names entries),
      ?_, hl, List.perm_insertionSort csvLe _, ?_, ?_, fun r _ => rfl⟩
    · intro hnil
      rw [hnil] at hlen
      exact hlen rfl
    · haveI : IsTotal CsvRow csvLe := ⟨csvLe_total⟩
      haveI : IsTrans CsvRow csvLe := ⟨csvLe_trans⟩
      exact List.sorted_insertionSort csvLe _
    · intro r hr
      have hr' : r ∈ buildRows tz count names entries :=
        ((List.perm_insertionSort csvLe _).mem_iff).mp hr
      unfold buildRows at hr'
      rw [List.mem_flatMap] at hr'
      obtain ⟨i, hi, hr2⟩ := hr'
      rw [List.mem_map] at hr2
      obtain ⟨e, he, hre⟩ := hr2
      exact ⟨i, hi, e, he, hre.symm⟩

/-- C5 (witness): the amended theorem applied to the concrete export of
one entry (2024-01-01 09:00-10:30 UTC, workspace named `a"b`, UTC
timezone), whose output lines are computed explicitly. -/
theorem exportToCSV_amended_witness :
    ∃ rows : List CsvRow,
      rows ≠ [] ∧
      [csvHeader,
        "\"a\"b\",2024-01-01,09:00:00,10:30:00,01:30:00,5400,\"No description\""] =
        csvHeader :: rows.map renderRow ∧
      rows.Perm (buildRows 0 1 csvDemoNames csvDemoEntries) ∧
      List.Sorted csvLe rows ∧
      (∀ r ∈ rows, ∃ i, i ∈ List.range' 1 1 ∧ ∃ e ∈ csvDemoEntries i,
        r = csvRowOf 0 (nameOrDefault csvDemoNames i) e) ∧
      (∀ r ∈ rows, renderRow r =
        "\"" ++ r.workspace ++ "\"" ++ "," ++ r.date ++ "," ++ r.startTime ++
        "," ++ r.endTime ++ "," ++ r.duration ++ "," ++
        toString r.durationSeconds ++ "," ++ "\"" ++
        jsReplaceQuotes r.description ++ "\"") :=
  exportToCSV_amended 0 1 csvDemoNames csvDemoEntries
    [csvHeader,
      "\"a\"b\",2024-01-01,09:00:00,10:30:00,01:30:00,5400,\"No description\""]
    (by rfl)

/-- C5 (counterexample): the claim as stated is false on two counts, shown
on the concrete single-entry export.  First, the workspace-name field is
quote-wrapped WITHOUT doubling its interior quote: the workspace named
`a"b` yields the field `"a"b"` where the claimed quoting would yield
`"a""b"`.  Second, the date field is rendered from `toISOString` in UTC,
not in the exporting process's local timezone: at a fixed offset of
-10 hours the instant 2024-01-01T09:00Z falls on local calendar day
2023-12-31, yet the rendered date field stays `2024-01-01`. -/
theorem exportToCSV_counterexample :
    exportToCSV 0 1 csvDemoNames csvDemoEntries =
      Except.ok [csvHeader,
        "\"a\"b\",2024-01-01,09:00:00,10:30:00,01:30:00,5400,\"No description\""] ∧
    "\"a\"b\",2024-01-01,09:00:00,10:30:00,01:30:00,5400,\"No description\"" ≠
      "\"a\"\"b\",2024-01-01,09:00:00,10:30:00,01:30:00,5400,\"No description\"" ∧
    (csvRowOf (-36000000) "W" csvDemoEntry).date = "2024-01-01" ∧
    civilFromDays (localDays (-36000000) 1704099600000) = (2023, 12, 31) := by
  refine ⟨by rfl, by decide, by decide, by decide⟩

/-! List lemmas supporting the filter and aggregation theorems. -/

theorem filter_idem {α : Type} (p : α → Bool) (l : List α) :
    (l.filter p).filter p = l.filter p := by
  rw [List.filter_filter]
  congr 1
  funext x
  cases p x <;> rfl

theorem filter_pair_idem {α : Type} (p q : α → Bool) (l : List α) :
    (((l.filter p).filter q).filter p).filter q = (l.filter p).filter q := by
  rw [List.filter_filter, List.filter_filter, List.filter_filter,
    List.filter_filter]
  congr 1
  funext x
  cases p x <;> cases q x <;> rfl

/-- C6: the record filter is idempotent (same evaluation context), the
all/all filter is the identity, and the output is order-preserving — a
sublist of the input.  Purity holds by construction: `filterRecords` is a
function of its inputs (the source copies the array before filtering,
main.js:736). -/
theorem filterRecords_algebra (f : FilterState) (tz now : Int)
    (records : List RecordR) :
    filterRecords f tz now (filterRecords f tz now records) =
      filterRecords f tz now records ∧
    filterRecords ⟨WorkspaceScope.all, DateScope.all⟩ tz now records = records ∧
    (filterRecords f tz now records).Sublist records := by
  obtain ⟨fw, fd⟩ := f
  refine ⟨?_, rfl, ?_⟩
  · cases fw <;> cases fd <;>
      simp only [filterRecords] <;>
      first
        | rfl
        | exact filter_idem _ _
        | exact filter_pair_idem _ _ _
  · cases fw <;> cases fd <;>
      simp only [filterRecords] <;>
      first
        | exact List.Sublist.refl _
        | exact List.filter_sublist _
        | exact (List.filter_sublist _).trans (List.filter_sublist _)

theorem dayTotal_cons (tz now : Int) (e : Entry) (es : List Entry) :
    dayTotal tz now (e :: es) =
      (if localDays tz e.startTime = localDays tz now then e.duration else 0) +
        dayTotal tz now es := by
  unfold dayTotal
  by_cases h : localDays tz e.startTime = localDays tz now
  · simp [List.filter_cons, h]
  · simp [List.filter_cons, h]

theorem foldl_day_eq (tz now : Int) (es : List Entry) : ∀ t : Int,
    es.foldl (fun acc e =>
      if localDays tz e.startTime = localDays tz now then acc + e.duration
      else acc) t = t + dayTotal tz now es := by
  induction es with
  | nil =>
      intro t
      simp [dayTotal]
  | cons e es ih =>
      intro t
      by_cases h : localDays tz e.startTime = localDays tz now
      · simp only [List.foldl_cons, if_pos h]
        rw [ih, dayTotal_cons, if_pos h]
        ring
      · simp only [List.foldl_cons, if_neg h]
        rw [ih, dayTotal_cons, if_neg h]
        ring

theorem liveElapsed_split (now : Int) (t : Timer) :
    t.elapsed + (match t.startTime with
      | some st => now - st
      | none => 0) = liveElapsed now t := by
  unfold liveElapsed
  cases t.startTime with
  | some st => rfl
  | none => ring

theorem updateTotal_go (tz now : Int) (s : AppState) : ∀ (l : List Nat) (t : Int),
    l.foldl (fun total i =>
      let t1 := (s.entries i).foldl (fun acc e =>
        if localDays tz e.startTime = localDays tz now then acc + e.duration
        else acc) total
      if s.activeWorkspace = some i then
        t1 + (s.timers i).elapsed +
          (match (s.timers i).startTime with
           | some st => now - st
           | none => 0)
      else t1) t
    = t + (l.map (fun i => dayTotal tz now (s.entries i) +
        (if s.activeWorkspace = some i then liveElapsed now (s.timers i)
         else 0))).sum := by
  intro l
  induction l with
  | nil =>
      intro t
      simp
  | cons i l ih =>
      intro t
      rw [List.foldl_cons, ih]
      simp only [List.map_cons, List.sum_cons]
      by_cases hA : s.activeWorkspace = some i
      · simp only [if_pos hA, foldl_day_eq]
        rw [← liveElapsed_split now (s.timers i)]
        ring
      · simp only [if_neg hA, foldl_day_eq]
        ring

theorem sum_map_add (f g : Nat → Int) : ∀ l : List Nat,
    (l.map (fun i => f i + g i)).sum = (l.map f).sum + (l.map g).sum := by
  intro l
  induction l with
  | nil => simp
  | cons i l ih =>
      simp only [List.map_cons, List.sum_cons, ih]
      ring

theorem sum_ind_not (g : Nat → Int) (a : Nat) : ∀ l : List Nat, a ∉ l →
    (l.map (fun i => if a = i then g i else 0)).sum = 0 := by
  intro l
  induction l with
  | nil =>
      intro _
      simp
  | cons i l ih =>
      intro ha
      have hai : a ≠ i := fun h => ha (h ▸ List.mem_cons_self i l)
      have hal : a ∉ l := fun h => ha (List.mem_cons_of_mem i h)
      simp only [List.map_cons, List.sum_cons, if_neg hai, ih hal]
      ring

theorem sum_ind_mem (g : Nat → Int) (a : Nat) : ∀ l : List Nat, l.Nodup →
    a ∈ l → (l.map (fun i => if a = i then g i else 0)).sum = g a := by
  intro l
  induction l with
  | nil =>
      intro _ ha
      cases ha
  | cons i l ih =>
      intro hnd ha
      rw [List.nodup_cons] at hnd
      rcases List.mem_cons.mp ha with hai | hal
      · subst hai
        simp only [List.map_cons, List.sum_cons]
        rw [sum_ind_not g a l hnd.1]
        simp
      · have hai : a ≠ i := fun h => hnd.1 (h ▸ hal)
        simp only [List.map_cons, List.sum_cons, if_neg hai, ih hnd.2 hal]
        ring

theorem sum_map_zero : ∀ l : List Nat, (l.map (fun _ => (0 : Int))).sum = 0 := by
  intro l
  induction l with
  | nil => simp
  | cons i l ih => simp [ih]

/-- C7: `updateTotalTime` equals the specification formula — the sum over
the exposed workspaces of the durations of the entries whose `startTime`
falls on the current local calendar day, plus the live elapsed time of the
active workspace when one is set (included regardless of when that
interval started) — and it returns 0 when there are no entries and no
active timer.  The hypothesis that the active workspace, when set, lies in
`[1, workspaceCount]` holds in every reachable state. -/
theorem updateTotalTime_correct (tz now : Int) (s : AppState)
    (h : s.activeWorkspace = none ∨
      ∃ a, s.activeWorkspace = some a ∧ a ∈ List.range' 1 s.workspaceCount) :
    updateTotalTime tz now s = totalTodaySpec tz now s ∧
    ((∀ i, s.entries i = []) → s.activeWorkspace = none →
      updateTotalTime tz now s = 0) := by
  have hmain : updateTotalTime tz now s = totalTodaySpec tz now s := by
    unfold updateTotalTime totalTodaySpec
    rw [updateTotal_go, sum_map_add]
    rcases h with hA | ⟨a, hA, hmem⟩
    · rw [hA]
      have hz : ((List.range' 1 s.workspaceCount).map
          (fun i => if (none : Option Nat) = some i then
            liveElapsed now (s.timers i) else 0)).sum = 0 := by
        have : ∀ i : Nat, (if (none : Option Nat) = some i then
            liveElapsed now (s.timers i) else 0) = 0 := by
          intro i
          simp
        calc ((List.range' 1 s.workspaceCount).map
            (fun i => if (none : Option Nat) = some i then
              liveElapsed now (s.timers i) else 0)).sum
            = ((List.range' 1 s.workspaceCount).map (fun _ => (0 : Int))).sum :=
              congrArg List.sum (List.map_congr_left (fun i _ => this i))
          _ = 0 := sum_map_zero _
      rw [hz]
      simp

    · rw [hA]
      have hz : ((List.range' 1 s.workspaceCount).map
          (fun i => if some a = some i then liveElapsed now (s.timers i)
            else 0)).sum = liveElapsed now (s.timers a) := by
        calc ((List.range' 1 s.workspaceCount).map
            (fun i => if some a = some i then liveElapsed now (s.timers i)
              else 0)).sum
            = ((List.range' 1 s.workspaceCount).map
              (fun i => if a = i then liveElapsed now (s.timers i)
                else 0)).sum := by
              refine congrArg List.sum (List.map_congr_left (fun i _ => ?_))
              simp
          _ = liveElapsed now (s.timers a) :=
              sum_ind_mem _ a _ (List.nodup_range' 1 s.workspaceCount) hmem
      rw [hz]
      simp
  refine ⟨hmain, ?_⟩
  intro hent hA
  rw [hmain]
  unfold totalTodaySpec
  rw [hA]
  have hz : ((List.range' 1 s.workspaceCount).map
      (fun i => dayTotal tz now (s.entries i))).sum = 0 := by
    calc ((List.range' 1 s.workspaceCount).map
        (fun i => dayTotal tz now (s.entries i))).sum
        = ((List.range' 1 s.workspaceCount).map (fun _ => (0 : Int))).sum := by
          refine congrArg List.sum (List.map_congr_left (fun i _ => ?_))
          rw [hent i]
          rfl
      _ = 0 := sum_map_zero _
  rw [hz]
  simp

/-- C7 (witness): the theorem applied to the concrete reachable state in
which workspace 1 runs since instant 100 (its live term is counted even
though no entry exists). -/
theorem updateTotalTime_correct_witness :
    updateTotalTime 0 250 (startTimer 1 100 100 100 "" (initialState 1)) =
      totalTodaySpec 0 250 (startTimer 1 100 100 100 "" (initialState 1)) :=
  (updateTotalTime_correct 0 250 (startTimer 1 100 100 100 "" (initialState 1))
    (Or.inr ⟨1, by decide, by decide⟩)).1

theorem foldl_dur (rs : List RecordR) : ∀ t : Int,
    rs.foldl (fun sum r => sum + r.duration) t =
      t + (rs.map (fun r => r.duration)).sum := by
  induction rs with
  | nil =>
      intro t
      simp
  | cons r rs ih =>
      intro t
      rw [List.foldl_cons, ih]
      simp only [List.map_cons, List.sum_cons]
      ring

/-- C8: the records summary computes `count` as the number of records,
`totalDurationMs` as the sum of their durations, and `averageDurationMs`
as `totalDurationMs / count` for a nonempty set and `0` for the empty set;
in particular it matches the specification's two examples. -/
theorem recordsSummary_correct :
    (∀ rs : List RecordR, recordsSummary rs = summarizeSpec rs) ∧
    recordsSummary [] = (0, 0, 0) ∧
    recordsSummary [demoRec 1000, demoRec 3000] = (2, 4000, 2000) := by
  have hmain : ∀ rs : List RecordR, recordsSummary rs = summarizeSpec rs := by
    intro rs
    unfold recordsSummary summarizeSpec
    rw [foldl_dur]
    simp
  refine ⟨hmain, rfl, ?_⟩
  rw [hmain]
  unfold summarizeSpec demoRec
  norm_num

/-- C9: exporting with zero entries across the exposed workspaces reports
the empty-export condition ("No entries to export") and produces no
output; conversely a successful export implies some exposed workspace had
at least one entry — an empty result is never treated as success. -/
theorem exportToCSV_empty (tz : Int) (count : Nat) (names : Nat → String)
    (entries : Nat → List Entry) :
    ((∀ i, i ∈ List.range' 1 count → entries i = []) →
      exportToCSV tz count names entries = Except.error "No entries to export") ∧
    (∀ lines, exportToCSV tz count names entries = Except.ok lines →
      ∃ i, i ∈ List.range' 1 count ∧ entries i ≠ []) := by
  have hempty : (∀ i, i ∈ List.range' 1 count → entries i = []) →
      exportToCSV tz count names entries = Except.error "No entries to export" := by
    intro hH
    unfold exportToCSV
    have hb : buildRows tz count names entries = [] := by
      unfold buildRows
      rw [List.flatMap_eq_nil_iff]
      intro i hi
      rw [hH i hi]
      rfl
    rw [hb]
    rfl
  refine ⟨hempty, ?_⟩
  intro lines hl
  by_contra hno
  push_neg at hno
  have hall : ∀ i, i ∈ List.range' 1 count → entries i = [] := by
    intro i hi
    exact hno i hi
  rw [hempty hall] at hl
  cases hl

/-- C9 (witness): the empty-export branch on a concrete empty entry set. -/
theorem exportToCSV_empty_witness :
    exportToCSV 0 1 (fun _ => "") (fun _ => []) =
      Except.error "No entries to export" :=
  (exportToCSV_empty 0 1 (fun _ => "") (fun _ => [])).1 (fun _ _ => rfl)

end Clockr
